import Mathlib

/-!
# Verification of the meridian type-safe timezone wrapper

This file is a shallow embedding of the `meridian` Go package
(`meridian.go`, the generic `Time[TZ]` wrapper) together with a
behavioural model of the parts of Go's standard `time` package that the
wrapper delegates to (the "civil-time" collaborator of the spec):
instant representation, zone lookup, proleptic-Gregorian calendar
conversion, the `Date`/`AddDate`/`Unix*` constructors, comparisons,
and the binary / JSON codecs.

Machine integers are modelled as unbounded `Int` with explicit range
hypotheses where int64 width matters; Go's truncating division is
modelled explicitly (`goQuo`/`goRem`); byte strings are `List Int` of
byte values.
-/

namespace Meridian

/-! ## Zone model

A `Location` models Go's `*time.Location`: a name, the standard offset
(seconds east of UTC) in effect before the first transition, and a
sorted list of `(transition instant in Unix seconds, new offset)`
pairs.  A fixed-offset zone (such as `time.UTC` or `time.FixedZone`)
has no transitions. -/

structure Location where
  name : String
  std : Int
  trans : List (Int × Int)
deriving Repr, DecidableEq

/-- The distinguished UTC location (`time.UTC`). -/
def utcLoc : Location := ⟨"UTC", 0, []⟩

/-- The system-local location (`time.Local`).  Its actual zone data is
environment-dependent and never observable through the operations the
claims quantify over (the wrapper converts to UTC immediately), so the
model fixes an arbitrary marker value. -/
def localLoc : Location := ⟨"Local", 0, []⟩

/-- Zone lookup walk: returns `(offset, start, end)` for the zone
period containing Unix second `t`; `none` bounds mean the period is
unbounded on that side (Go uses `math.MinInt64` / `omega` sentinels). -/
def lookupGo (std : Int) (start : Option Int) (l : List (Int × Int)) (t : Int) :
    Int × Option Int × Option Int :=
  match l with
  | [] => (std, start, none)
  | (w, o) :: rest => if t < w then (std, start, some w) else lookupGo o (some w) rest t

/-- Model of `Location.lookup`: zone offset and period bounds at Unix second `t`. -/
def lookupFull (loc : Location) (t : Int) : Int × Option Int × Option Int :=
  lookupGo loc.std none loc.trans t

/-- Zone offset (seconds east of UTC) in effect at Unix second `t`. -/
def lookupOff (loc : Location) (t : Int) : Int :=
  (lookupFull loc t).1

/-- Whether `x` is before an optional period start. -/
def beforeStart (x : Int) : Option Int → Bool
  | none => false
  | some s => x < s

/-- Whether `x` is at or past an optional period end. -/
def atEnd (x : Int) : Option Int → Bool
  | none => false
  | some e => e ≤ x

/-! ## Calendar model

The proleptic Gregorian conversion between epoch days and civil dates,
as computed by Go's `time.Time.date`/`time.Date`.  The conversion is
written as an explicit hierarchy (400-year era, century, 4-year
quadrennium, year, month) over the March-based year, which is
behaviourally the standard Gregorian civil calendar. -/

/-- Length in days of March-based year `yoe` (`0..399`) within a
400-year era; year `yoe` is long exactly when the February that ends it
belongs to a Gregorian leap year. -/
def marchYearLen (yoe : Int) : Int :=
  if yoe % 4 = 3 ∧ (yoe % 100 ≠ 99 ∨ yoe = 399) then 366 else 365

/-- Days in the era before March-based year `yoe`. -/
def marchDays (yoe : Int) : Int := 365 * yoe + yoe / 4 - yoe / 100

/-- Split a day offset within a quadrennium into (year, day-of-year). -/
def marchSplitQ (base dq : Int) : Int × Int :=
  if dq < 365 then (base, dq)
  else if dq < 730 then (base + 1, dq - 365)
  else if dq < 1095 then (base + 2, dq - 730)
  else (base + 3, dq - 1095)

/-- Split a day offset within a century `c` into (year-of-era, day-of-year). -/
def marchSplitC (c dc : Int) : Int × Int :=
  marchSplitQ (c * 100 + dc / 1461 * 4) (dc % 1461)

/-- Split a day-of-era (`0..146096`) into (year-of-era, day-of-March-year). -/
def marchSplit (doe : Int) : Int × Int :=
  if doe < 36524 then marchSplitC 0 doe
  else if doe < 73048 then marchSplitC 1 (doe - 36524)
  else if doe < 109572 then marchSplitC 2 (doe - 73048)
  else marchSplitC 3 (doe - 109572)

/-- First day-of-March-year of March-based month `mp` (`0` = March). -/
def monthStart (mp : Int) : Int := (153 * mp + 2) / 5

/-- Split a day-of-March-year (`0..365`) into (March-based month, day-of-month). -/
def monthSplit (doy : Int) : Int × Int :=
  ((5 * doy + 2) / 153, doy - (153 * ((5 * doy + 2) / 153) + 2) / 5 + 1)

/-- Gregorian leap-year test (`isLeap` in Go's time package). -/
def isLeap (y : Int) : Prop := y % 4 = 0 ∧ (y % 100 ≠ 0 ∨ y % 400 = 0)

instance (y : Int) : Decidable (isLeap y) := by
  unfold isLeap
  infer_instance

/-- Number of days in civil month `m` of year `y` (`daysIn` in Go). -/
def daysInMonth (y m : Int) : Int :=
  if m = 2 then (if isLeap y then 29 else 28)
  else if m = 4 ∨ m = 6 ∨ m = 9 ∨ m = 11 then 30
  else 31

/-- Days since 1970-01-01 of the civil date `y-m-d`.  Defined for any
integer `d`; out-of-range day numbers denote the correspondingly
shifted date, matching Go's construction by day offset. -/
def daysFromCivil (y m d : Int) : Int :=
  let y' := y - (if m ≤ 2 then 1 else 0)
  let era := y' / 400
  let yoe := y' % 400
  let mp := if 2 < m then m - 3 else m + 9
  146097 * era + marchDays yoe + monthStart mp + (d - 1) - 719468

/-- Civil date `(y, m, d)` of the day `z` (days since 1970-01-01). -/
def civilFromDays (z : Int) : Int × Int × Int :=
  let era := (z + 719468) / 146097
  let doe := (z + 719468) % 146097
  let ys := marchSplit doe
  let ms := monthSplit ys.2
  let m := if ms.1 < 10 then ms.1 + 3 else ms.1 - 9
  (400 * era + ys.1 + (if m ≤ 2 then 1 else 0), m, ms.2)

/-- Split seconds-of-day into `(hour, minute, second)`. -/
def clockSplit (sod : Int) : Int × Int × Int :=
  (sod / 3600, sod % 3600 / 60, sod % 60)

theorem marchDays_decomp (c q r : Int)
    (_hq1 : 0 ≤ q) (_hq2 : q ≤ 24) (hr1 : 0 ≤ r) (hr2 : r ≤ 3) :
    marchDays (100 * c + 4 * q + r) = 36524 * c + 1461 * q + 365 * r := by
  unfold marchDays
  omega

theorem marchSplit_century (c dc : Int) (h1 : 0 ≤ c) (h2 : c ≤ 3) (h3 : 0 ≤ dc)
    (h4 : dc ≤ 36523 + (if c = 3 then 1 else 0)) :
    marchSplit (36524 * c + dc) = marchSplitC c dc := by
  unfold marchSplit
  split_ifs <;> first | (exfalso; omega) | (congr 1 <;> omega)

theorem marchSplitC_eq (c q r doy : Int) (_hq1 : 0 ≤ q) (_hq2 : q ≤ 24)
    (hr1 : 0 ≤ r) (hr2 : r ≤ 3) (h3 : 0 ≤ doy)
    (h4 : doy < (if r = 3 ∧ (q ≠ 24 ∨ c = 3) then 366 else 365)) :
    marchSplitC c (1461 * q + 365 * r + doy) = (c * 100 + 4 * q + r, doy) := by
  unfold marchSplitC
  have hdiv : (1461 * q + 365 * r + doy) / 1461 = q := by
    split_ifs at h4 <;> omega
  have hmod : (1461 * q + 365 * r + doy) % 1461 = 365 * r + doy := by
    split_ifs at h4 <;> omega
  rw [hdiv, hmod]
  unfold marchSplitQ
  split_ifs at h4 ⊢ <;> (rw [Prod.mk.injEq]) <;> omega

theorem marchSplit_eq (yoe doy : Int) (h1 : 0 ≤ yoe) (h2 : yoe ≤ 399)
    (h3 : 0 ≤ doy) (h4 : doy < marchYearLen yoe) :
    marchSplit (marchDays yoe + doy) = (yoe, doy) := by
  obtain ⟨c, q, r, hd, hc1, hc2, hq1, hq2, hr1, hr2⟩ :
      ∃ c q r, yoe = 100 * c + 4 * q + r ∧
        0 ≤ c ∧ c ≤ 3 ∧ 0 ≤ q ∧ q ≤ 24 ∧ 0 ≤ r ∧ r ≤ 3 :=
    ⟨yoe / 100, yoe % 100 / 4, yoe % 4, by omega, by omega, by omega, by omega, by omega,
      by omega, by omega⟩
  subst hd
  rw [marchDays_decomp c q r hq1 hq2 hr1 hr2]
  simp only [marchYearLen] at h4
  have hlen : doy < (if r = 3 ∧ (q ≠ 24 ∨ c = 3) then 366 else 365) := by
    split_ifs at h4 ⊢ <;> omega
  have hre : 36524 * c + 1461 * q + 365 * r + doy =
      36524 * c + (1461 * q + 365 * r + doy) := by ring
  rw [hre, marchSplit_century c _ hc1 hc2 (by omega) (by split_ifs at hlen ⊢ <;> omega),
    marchSplitC_eq c q r doy hq1 hq2 hr1 hr2 h3 hlen]
  rw [Prod.mk.injEq]
  omega

theorem marchSplit_inv (doe : Int) (h1 : 0 ≤ doe) (h2 : doe ≤ 146096) :
    marchDays (marchSplit doe).1 + (marchSplit doe).2 = doe ∧
    0 ≤ (marchSplit doe).1 ∧ (marchSplit doe).1 ≤ 399 ∧
    0 ≤ (marchSplit doe).2 ∧ (marchSplit doe).2 < marchYearLen (marchSplit doe).1 := by
  simp only [marchSplit, marchSplitC, marchSplitQ, marchDays, marchYearLen]
  split_ifs <;> omega


theorem monthSplit_eq (mp d : Int) (h1 : 0 ≤ mp) (h2 : mp ≤ 11)
    (h3 : 1 ≤ d) (h4 : monthStart mp + (d - 1) < monthStart (mp + 1))
    (h5 : monthStart mp + (d - 1) ≤ 365) :
    monthSplit (monthStart mp + (d - 1)) = (mp, d) := by
  unfold monthSplit monthStart at *
  rw [Prod.mk.injEq]
  have hm : mp = 0 ∨ mp = 1 ∨ mp = 2 ∨ mp = 3 ∨ mp = 4 ∨ mp = 5 ∨ mp = 6 ∨
      mp = 7 ∨ mp = 8 ∨ mp = 9 ∨ mp = 10 ∨ mp = 11 := by omega
  rcases hm with rfl | rfl | rfl | rfl | rfl | rfl | rfl | rfl | rfl | rfl | rfl | rfl <;> omega

theorem monthSplit_inv (doy : Int) (h1 : 0 ≤ doy) (h2 : doy ≤ 365) :
    monthStart (monthSplit doy).1 + ((monthSplit doy).2 - 1) = doy ∧
    0 ≤ (monthSplit doy).1 ∧ (monthSplit doy).1 ≤ 11 ∧
    1 ≤ (monthSplit doy).2 ∧
    monthStart (monthSplit doy).1 + ((monthSplit doy).2 - 1) <
      monthStart ((monthSplit doy).1 + 1) := by
  unfold monthSplit monthStart
  have hm : doy < 31 ∨ (31 ≤ doy ∧ doy < 61) ∨ (61 ≤ doy ∧ doy < 92) ∨
      (92 ≤ doy ∧ doy < 122) ∨ (122 ≤ doy ∧ doy < 153) ∨ (153 ≤ doy ∧ doy < 184) ∨
      (184 ≤ doy ∧ doy < 214) ∨ (214 ≤ doy ∧ doy < 245) ∨ (245 ≤ doy ∧ doy < 275) ∨
      (275 ≤ doy ∧ doy < 306) ∨ (306 ≤ doy ∧ doy < 337) ∨ 337 ≤ doy := by omega
  rcases hm with h | h | h | h | h | h | h | h | h | h | h | h <;> omega

theorem fstPair {a : Type} {b : Type} (x : a) (y : b) : (x, y).1 = x := rfl

theorem sndPair {a : Type} {b : Type} (x : a) (y : b) : (x, y).2 = y := rfl

theorem marchSplit_facts (doe yoe doy : Int) (h1 : 0 ≤ doe) (h2 : doe ≤ 146096)
    (h : marchSplit doe = (yoe, doy)) :
    marchDays yoe + doy = doe ∧ 0 ≤ yoe ∧ yoe ≤ 399 ∧ 0 ≤ doy ∧
    doy < marchYearLen yoe := by
  simp only [marchSplit, marchSplitC, marchSplitQ, marchDays, marchYearLen] at h ⊢
  split_ifs at h <;> (rw [Prod.mk.injEq] at h) <;> split_ifs <;> omega

theorem monthSplit_facts (doy mp d : Int) (h1 : 0 ≤ doy) (h2 : doy ≤ 365)
    (h : monthSplit doy = (mp, d)) :
    monthStart mp + (d - 1) = doy ∧ 0 ≤ mp ∧ mp ≤ 11 ∧ 1 ≤ d ∧
    monthStart mp + (d - 1) < monthStart (mp + 1) := by
  unfold monthSplit at h
  rw [Prod.mk.injEq] at h
  obtain ⟨hmpd, hdd⟩ := h
  subst hmpd
  subst hdd
  unfold monthStart
  have hm : doy < 31 ∨ (31 ≤ doy ∧ doy < 61) ∨ (61 ≤ doy ∧ doy < 92) ∨
      (92 ≤ doy ∧ doy < 122) ∨ (122 ≤ doy ∧ doy < 153) ∨ (153 ≤ doy ∧ doy < 184) ∨
      (184 ≤ doy ∧ doy < 214) ∨ (214 ≤ doy ∧ doy < 245) ∨ (245 ≤ doy ∧ doy < 275) ∨
      (275 ≤ doy ∧ doy < 306) ∨ (306 ≤ doy ∧ doy < 337) ∨ 337 ≤ doy := by omega
  rcases hm with h' | h' | h' | h' | h' | h' | h' | h' | h' | h' | h' | h' <;> omega

theorem civilFromDays_daysFromCivil (y m d : Int) (hm1 : 1 ≤ m) (hm2 : m ≤ 12)
    (hd1 : 1 ≤ d) (hd2 : d ≤ daysInMonth y m) :
    civilFromDays (daysFromCivil y m d) = (y, m, d) := by
  obtain ⟨mp, hmp⟩ : ∃ mp, (if 2 < m then m - 3 else m + 9) = mp := ⟨_, rfl⟩
  obtain ⟨bitv, hbitv⟩ : ∃ b, (if m ≤ 2 then (1 : Int) else 0) = b := ⟨_, rfl⟩
  have hmpc : (2 < m ∧ mp = m - 3 ∧ bitv = 0) ∨ (m ≤ 2 ∧ mp = m + 9 ∧ bitv = 1) := by
    rw [← hmp, ← hbitv]
    split_ifs <;> omega
  simp only [daysFromCivil]
  rw [hbitv, hmp]
  obtain ⟨era, yoe, hsp, hy1, hy2⟩ : ∃ era yoe,
      y - bitv = 400 * era + yoe ∧ 0 ≤ yoe ∧ yoe ≤ 399 :=
    ⟨(y - bitv) / 400, (y - bitv) % 400, by omega, by omega, by omega⟩
  have h400d : (y - bitv) / 400 = era := by omega
  have h400m : (y - bitv) % 400 = yoe := by omega
  rw [h400d, h400m]
  have hkey : 0 ≤ monthStart mp + (d - 1) ∧ monthStart mp + (d - 1) < marchYearLen yoe ∧
      monthStart mp + (d - 1) ≤ 365 ∧ monthStart mp + (d - 1) < monthStart (mp + 1) ∧
      0 ≤ mp ∧ mp ≤ 11 := by
    have hmpcase : mp = 0 ∨ mp = 1 ∨ mp = 2 ∨ mp = 3 ∨ mp = 4 ∨ mp = 5 ∨ mp = 6 ∨
        mp = 7 ∨ mp = 8 ∨ mp = 9 ∨ mp = 10 ∨ mp = 11 := by
      rcases hmpc with ⟨h', he, _⟩ | ⟨h', he, _⟩ <;> omega
    simp only [daysInMonth, isLeap] at hd2
    unfold marchYearLen monthStart
    rcases hmpcase with rfl | rfl | rfl | rfl | rfl | rfl | rfl | rfl | rfl | rfl | rfl | rfl <;>
      split_ifs at hd2 ⊢ <;> omega
  have harg : 146097 * era + marchDays yoe + monthStart mp + (d - 1) - 719468 + 719468 =
      146097 * era + (marchDays yoe + (monthStart mp + (d - 1))) := by ring
  have hmb : 0 ≤ marchDays yoe + (monthStart mp + (d - 1)) ∧
      marchDays yoe + (monthStart mp + (d - 1)) ≤ 146096 := by
    have hyl : marchYearLen yoe ≤ 366 := by
      unfold marchYearLen
      split_ifs <;> omega
    have hcap : marchDays yoe + marchYearLen yoe ≤ 146097 := by
      unfold marchDays marchYearLen
      split_ifs <;> omega
    have hnn : 0 ≤ marchDays yoe := by
      unfold marchDays
      omega
    omega
  have hdivq : (146097 * era + (marchDays yoe + (monthStart mp + (d - 1)))) / 146097 =
      era := by omega
  have hmodq : (146097 * era + (marchDays yoe + (monthStart mp + (d - 1)))) % 146097 =
      marchDays yoe + (monthStart mp + (d - 1)) := by omega
  simp only [civilFromDays, harg, hdivq, hmodq]
  rw [marchSplit_eq yoe (monthStart mp + (d - 1)) hy1 hy2 hkey.1 hkey.2.1]
  simp only [sndPair, fstPair]
  have hms : monthStart mp + (d - 1) = monthStart mp + (d - 1) := rfl
  rw [monthSplit_eq mp d hkey.2.2.2.2.1 hkey.2.2.2.2.2 hd1 hkey.2.2.2.1 hkey.2.2.1]
  simp only [sndPair, fstPair]
  rw [Prod.mk.injEq, Prod.mk.injEq]
  refine ⟨by split_ifs <;> omega, by omega, rfl⟩

theorem daysFromCivil_civilFromDays (z y m d : Int) (h : civilFromDays z = (y, m, d)) :
    daysFromCivil y m d = z ∧ 1 ≤ m ∧ m ≤ 12 ∧ 1 ≤ d ∧ d ≤ daysInMonth y m := by
  obtain ⟨era, doe, hsp, hdo1, hdo2⟩ : ∃ era doe,
      z + 719468 = 146097 * era + doe ∧ 0 ≤ doe ∧ doe ≤ 146096 :=
    ⟨(z + 719468) / 146097, (z + 719468) % 146097, by omega, by omega, by omega⟩
  have hdivq : (z + 719468) / 146097 = era := by omega
  have hmodq : (z + 719468) % 146097 = doe := by omega
  obtain ⟨yoe, doy, hmsp⟩ : ∃ a b, marchSplit doe = (a, b) := ⟨_, _, rfl⟩
  have hmsf := marchSplit_facts doe yoe doy hdo1 hdo2 hmsp
  obtain ⟨mp, dd, hmop⟩ : ∃ a b, monthSplit doy = (a, b) := ⟨_, _, rfl⟩
  have hyl : marchYearLen yoe ≤ 366 := by
    unfold marchYearLen
    split_ifs <;> omega
  have hmof := monthSplit_facts doy mp dd hmsf.2.2.2.1 (by omega) hmop
  simp only [civilFromDays, hdivq, hmodq, hmsp, hmop, sndPair, fstPair] at h
  rw [Prod.mk.injEq, Prod.mk.injEq] at h
  obtain ⟨hy, hm, hd⟩ := h
  rw [hm] at hy
  have hmb : (2 < m ∧ mp = m - 3) ∨ (m ≤ 2 ∧ mp = m + 9) := by
    have h0 := hmof.2.1
    have h11 := hmof.2.2.1
    split_ifs at hm <;> omega
  have hmr : 1 ≤ m ∧ m ≤ 12 := by
    have h0 := hmof.2.1
    have h11 := hmof.2.2.1
    omega
  have hdd1 : 1 ≤ d := by
    have := hmof.2.2.2.1
    omega
  refine ⟨?_, hmr.1, hmr.2, hdd1, ?_⟩
  · simp only [daysFromCivil]
    obtain ⟨hgt, hmpe⟩ | ⟨hle, hmpe⟩ := hmb
    · rw [if_neg (by omega), if_pos hgt]
      rw [if_neg (by omega)] at hy
      rw [show m - 3 = mp by omega]
      rw [show y - 0 = 400 * era + yoe by omega]
      rw [show (400 * era + yoe) / 400 = era by have := hmsf.2.1; have := hmsf.2.2.1; omega]
      rw [show (400 * era + yoe) % 400 = yoe by have := hmsf.2.1; have := hmsf.2.2.1; omega]
      have h1 := hmsf.1
      have h2 := hmof.1
      omega
    · rw [if_pos hle, if_neg (by omega)]
      rw [if_pos hle] at hy
      rw [show m + 9 = mp by omega]
      rw [show y - 1 = 400 * era + yoe by omega]
      rw [show (400 * era + yoe) / 400 = era by have := hmsf.2.1; have := hmsf.2.2.1; omega]
      rw [show (400 * era + yoe) % 400 = yoe by have := hmsf.2.1; have := hmsf.2.2.1; omega]
      have h1 := hmsf.1
      have h2 := hmof.1
      omega
  · have hdoylen := hmsf.2.2.2.2
    have hstart := hmof.1
    have hlast := hmof.2.2.2.2
    have h0 := hmof.2.1
    have h11 := hmof.2.2.1
    unfold marchYearLen at hdoylen
    unfold monthStart at hstart hlast
    simp only [daysInMonth, isLeap]
    have hmpcase : mp = 0 ∨ mp = 1 ∨ mp = 2 ∨ mp = 3 ∨ mp = 4 ∨ mp = 5 ∨ mp = 6 ∨
        mp = 7 ∨ mp = 8 ∨ mp = 9 ∨ mp = 10 ∨ mp = 11 := by omega
    obtain ⟨hgt, hmpe⟩ | ⟨hle, hmpe⟩ := hmb
    · rw [if_neg (by omega)] at hy
      rcases hmpcase with rfl | rfl | rfl | rfl | rfl | rfl | rfl | rfl | rfl | rfl | rfl | rfl <;>
        split_ifs at hdoylen ⊢ <;> omega
    · rw [if_pos hle] at hy
      rcases hmpcase with rfl | rfl | rfl | rfl | rfl | rfl | rfl | rfl | rfl | rfl | rfl | rfl <;>
        split_ifs at hdoylen ⊢ <;> omega

/-! ## Instants

`GoTime` models `time.Time` (with the monotonic reading stripped, as it
is after any of the operations modelled here): `sec` is seconds since
January 1, year 1, 00:00:00 UTC (Go's internal epoch), `nsec` the
sub-second nanoseconds, and `loc` the attached location. -/

/-- Seconds between the internal epoch (year 1) and the Unix epoch (1970). -/
def unixToInternal : Int := 62135596800

structure GoTime where
  sec : Int
  nsec : Int
  loc : Location
deriving Repr, DecidableEq

/-- Go's truncating integer division (the `/` of the Go language), for a
positive divisor. -/
def goQuo (x n : Int) : Int := if 0 ≤ x then x / n else -((-x) / n)

/-- Go's remainder (the `%` of the Go language), for a positive divisor. -/
def goRem (x n : Int) : Int := x - goQuo x n * n

/-- Model of `time.Time.UTC`: same instant, location UTC. -/
def GoTime.utc (t : GoTime) : GoTime := { t with loc := utcLoc }

/-- Model of `time.Time.In`: same instant, given location. -/
def GoTime.inLoc (t : GoTime) (loc : Location) : GoTime := { t with loc := loc }

/-- Unix seconds of the instant. -/
def GoTime.unixSec (t : GoTime) : Int := t.sec - unixToInternal

/-- Local (wall-clock) seconds since the internal epoch: the instant
shifted by the zone offset in effect, as in `time.Time.abs`. -/
def GoTime.locSec (t : GoTime) : Int := t.sec + lookupOff t.loc t.unixSec

/-- Model of `time.Time.Date`: civil year, month, day in `t.loc`. -/
def GoTime.dateTuple (t : GoTime) : Int × Int × Int :=
  civilFromDays (t.locSec / 86400 - 719162)

/-- Model of `time.Time.Clock`: hour, minute, second in `t.loc`. -/
def GoTime.clockTuple (t : GoTime) : Int × Int × Int :=
  clockSplit (t.locSec % 86400)

/-- Model of `time.Time.Nanosecond`. -/
def GoTime.nanosecond (t : GoTime) : Int := t.nsec

/-- Model of `time.Time.Equal`: instant equality, location-blind. -/
def GoTime.equal (t u : GoTime) : Bool := t.sec == u.sec && t.nsec == u.nsec

/-- Model of `time.Time.After`. -/
def GoTime.after (t u : GoTime) : Bool :=
  decide (u.sec < t.sec) || (t.sec == u.sec && decide (u.nsec < t.nsec))

/-- Model of `time.Time.Before`. -/
def GoTime.before (t u : GoTime) : Bool :=
  decide (t.sec < u.sec) || (t.sec == u.sec && decide (t.nsec < u.nsec))

/-- Model of `time.Time.Compare`. -/
def GoTime.compare (t u : GoTime) : Int :=
  let tc := if t.sec = u.sec then t.nsec else t.sec
  let uc := if t.sec = u.sec then u.nsec else u.sec
  if tc < uc then -1 else if uc < tc then 1 else 0

/-- Model of `time.Time.IsZero`: the canonical zero instant
(January 1, year 1, 00:00:00 UTC), location-blind. -/
def GoTime.isZero (t : GoTime) : Bool := t.sec == 0 && t.nsec == 0

/-- Second phase of Go's `norm`: push an overlarge `lo` down. -/
def goNormHi (hi lo base : Int) : Int × Int :=
  if base ≤ lo then (hi + lo / base, lo - lo / base * base) else (hi, lo)

/-- Go's `norm(hi, lo, base)`: push `lo` into `[0, base)`, carrying
into `hi`. -/
def goNorm (hi lo base : Int) : Int × Int :=
  if lo < 0 then
    goNormHi (hi - ((-lo - 1) / base + 1)) (lo + ((-lo - 1) / base + 1) * base) base
  else goNormHi hi lo base

/-- Offset resolution of `time.Date`: look up the offset for the wall
clock interpreted as UTC, then correct when the adjusted instant falls
outside the found zone period. -/
def dateOff (loc : Location) (unix : Int) : Int :=
  match lookupFull loc unix with
  | (off, start, stop) =>
    if off = 0 then 0
    else if beforeStart (unix - off) start then
      match start with
      | some s => lookupOff loc (s - 1)
      | none => off
    else if atEnd (unix - off) stop then
      match stop with
      | some e => lookupOff loc e
      | none => off
    else off

/-- Model of `time.Date`: normalize the components, interpret them as
wall-clock time in `loc`, store the corresponding instant. -/
def goDate (year month day hour minute sec nsec : Int) (loc : Location) : GoTime :=
  let ym := goNorm year (month - 1) 12
  let sn := goNorm sec nsec 1000000000
  let ms := goNorm minute sn.1 60
  let hm := goNorm hour ms.1 60
  let dh := goNorm day hm.1 24
  let days := daysFromCivil ym.1 (ym.2 + 1) dh.1 + 719162
  let unix := days * 86400 + dh.2 * 3600 + hm.2 * 60 + ms.2 - unixToInternal
  let off := dateOff loc unix
  ⟨unix - off + unixToInternal, sn.2, loc⟩

/-- Model of `time.Time.AddDate`: extract date and clock in `t.loc`,
add the deltas, rebuild via `goDate` in `t.loc`. -/
def GoTime.addDate (t : GoTime) (years months days : Int) : GoTime :=
  goDate (t.dateTuple.1 + years) (t.dateTuple.2.1 + months) (t.dateTuple.2.2 + days)
    t.clockTuple.1 t.clockTuple.2.1 t.clockTuple.2.2 t.nsec t.loc

/-- Model of `time.Unix`: normalize `nsec` into `[0, 1e9)` carrying
into `sec` (with Go's truncating division), attach the local location. -/
def goUnix (sec nsec : Int) : GoTime :=
  let p := if nsec < 0 ∨ 1000000000 ≤ nsec then
      (let n := goQuo nsec 1000000000
       let sec2 := sec + n
       let nsec2 := nsec - n * 1000000000
       if nsec2 < 0 then (sec2 - 1, nsec2 + 1000000000) else (sec2, nsec2))
    else (sec, nsec)
  ⟨p.1 + unixToInternal, p.2, localLoc⟩

/-- Model of `time.UnixMilli`. -/
def goUnixMilli (msec : Int) : GoTime :=
  goUnix (goQuo msec 1000) (goRem msec 1000 * 1000000)

/-- Model of `time.UnixMicro`. -/
def goUnixMicro (usec : Int) : GoTime :=
  goUnix (goQuo usec 1000000) (goRem usec 1000000 * 1000)

theorem goUnix_norm (s n : Int) :
    ((goUnix s n).sec - unixToInternal) * 1000000000 + (goUnix s n).nsec =
      s * 1000000000 + n ∧
    0 ≤ (goUnix s n).nsec ∧ (goUnix s n).nsec < 1000000000 ∧
    (goUnix s n).loc = localLoc := by
  simp only [goUnix, goQuo, unixToInternal]
  split_ifs <;> simp_all <;> omega

/-! ## Decimal digit strings

ASCII byte lists for the fixed-width decimal fields of the text codecs
(`appendInt` in Go), and the sequential parser (`parseUint`). -/

/-- Big-endian ASCII digits of `v`, zero-padded to width `n`. -/
def digitsBE : Nat → Int → List Int
  | 0, _ => []
  | n + 1, v => digitsBE n (v / 10) ++ [48 + v % 10]

/-- Decimal value of a digit-byte list, accumulated from the left. -/
def valFrom (a : Int) (ds : List Int) : Int :=
  ds.foldl (fun x c => x * 10 + (c - 48)) a

/-- Consume exactly `n` ASCII digits, accumulating their value. -/
def parseDigitsAcc : Nat → Int → List Int → Option (Int × List Int)
  | 0, acc, rest => some (acc, rest)
  | _ + 1, _, [] => none
  | n + 1, acc, c :: rest =>
    if 48 ≤ c ∧ c ≤ 57 then parseDigitsAcc n (acc * 10 + (c - 48)) rest else none

theorem digitsBE_length (n : Nat) (v : Int) : (digitsBE n v).length = n := by
  induction n generalizing v with
  | zero => rfl
  | succ n ih => simp [digitsBE, ih]

theorem digitsBE_digits (n : Nat) (v : Int) :
    ∀ c ∈ digitsBE n v, 48 ≤ c ∧ c ≤ 57 := by
  induction n generalizing v with
  | zero => simp [digitsBE]
  | succ n ih =>
    intro c hc
    simp only [digitsBE, List.mem_append, List.mem_singleton] at hc
    rcases hc with hc | hc
    · exact ih (v / 10) c hc
    · subst hc
      omega

theorem valFrom_digitsBE (n : Nat) : ∀ a v : Int, 0 ≤ v → v < 10 ^ n →
    valFrom a (digitsBE n v) = a * 10 ^ n + v := by
  induction n with
  | zero =>
    intro a v h1 h2
    simp only [digitsBE, valFrom, List.foldl_nil, pow_zero] at *
    omega
  | succ n ih =>
    intro a v h1 h2
    have hv1 : 0 ≤ v / 10 := by omega
    have hv2 : v / 10 < 10 ^ n := by
      have hp : (10 : Int) ^ (n + 1) = 10 ^ n * 10 := pow_succ 10 n
      omega
    have hih := ih a (v / 10) hv1 hv2
    simp only [digitsBE, valFrom, List.foldl_append, List.foldl_cons, List.foldl_nil] at hih ⊢
    rw [hih]
    have hp : (10 : Int) ^ (n + 1) = 10 ^ n * 10 := pow_succ 10 n
    rw [hp]
    ring_nf
    omega

theorem parseDigitsAcc_spec (ds : List Int) : ∀ (a : Int) (rest : List Int),
    (∀ c ∈ ds, 48 ≤ c ∧ c ≤ 57) →
    parseDigitsAcc ds.length a (ds ++ rest) = some (valFrom a ds, rest) := by
  induction ds with
  | nil => intro a rest _; simp [parseDigitsAcc, valFrom]
  | cons c ds ih =>
    intro a rest hd
    have hc := hd c (by simp)
    simp only [List.length_cons, List.cons_append, parseDigitsAcc, if_pos hc, List.append_eq]
    rw [ih (a * 10 + (c - 48)) rest (fun x hx => hd x (by simp [hx]))]
    simp [valFrom]

/-! ## Fractional seconds

Go's `fmtFrac`: print up to nine fractional digits least-significant
first, skipping trailing zeros, preceded by a dot when anything is
printed (`RFC3339Nano` behaviour). -/

/-- Emit fractional digits of `v` (width `i`), dropping trailing zeros. -/
def fracGo : Nat → Int → List Int → List Int
  | 0, _, acc => acc
  | i + 1, v, acc =>
    if acc = [] ∧ v % 10 = 0 then fracGo i (v / 10) []
    else fracGo i (v / 10) ((48 + v % 10) :: acc)

/-- Fraction byte suffix for `ns` nanoseconds: empty when zero,
otherwise a dot followed by the digits with trailing zeros trimmed. -/
def fracBytes (ns : Int) : List Int :=
  match fracGo 9 ns [] with
  | [] => []
  | ds => 46 :: ds

theorem fracGo_acc_ne (i : Nat) : ∀ (v : Int) (acc : List Int), acc ≠ [] →
    fracGo i v acc = digitsBE i v ++ acc := by
  induction i with
  | zero => intro v acc _; simp [fracGo, digitsBE]
  | succ i ih =>
    intro v acc hne
    simp only [fracGo, digitsBE]
    rw [if_neg (by simp [hne])]
    rw [ih (v / 10) ((48 + v % 10) :: acc) (by simp)]
    simp

theorem fracGo_zero (i : Nat) : fracGo i 0 [] = [] := by
  induction i with
  | zero => rfl
  | succ i ih => simpa [fracGo] using ih

theorem fracGo_strip (i : Nat) : ∀ v : Int, 0 < v → v < 10 ^ i →
    ∃ (k : Nat) (w : Int), fracGo i v [] = digitsBE (i - k) w ∧
      v = w * 10 ^ k ∧ ¬(w % 10 = 0) ∧ 0 < w ∧ k < i := by
  induction i with
  | zero => intro v h1 h2; simp only [pow_zero] at h2; omega
  | succ i ih =>
    intro v h1 h2
    by_cases hdiv : v % 10 = 0
    · have hv10a : 0 < v / 10 := by omega
      have hv10b : v / 10 < 10 ^ i := by
        have hp : (10 : Int) ^ (i + 1) = 10 ^ i * 10 := pow_succ 10 i
        omega
      obtain ⟨k, w, he, hv, hw, hw0, hk⟩ := ih (v / 10) hv10a hv10b
      refine ⟨k + 1, w, ?_, ?_, hw, hw0, by omega⟩
      · have hidx : i + 1 - (k + 1) = i - k := by omega
        simp only [fracGo]
        split_ifs with hcond
        · rw [hidx]
          exact he
        · exact absurd ⟨trivial, hdiv⟩ hcond
      · have hp : (10 : Int) ^ (k + 1) = 10 ^ k * 10 := pow_succ 10 k
        rw [hp]
        have hv10 : v = v / 10 * 10 := by omega
        rw [hv10, hv]
        ring
    · refine ⟨0, v, ?_, by simp, hdiv, h1, by omega⟩
      simp only [fracGo]
      split_ifs with hcond
      · exact absurd hcond.2 hdiv
      · rw [fracGo_acc_ne i (v / 10) [48 + v % 10] (by simp)]
        simp only [Nat.sub_zero, digitsBE]

theorem fracBytes_ne (ns : Int) (h1 : 0 < ns) (h2 : ns < 1000000000) :
    ∃ (k : Nat) (w : Int), fracBytes ns = 46 :: digitsBE (9 - k) w ∧
      ns = w * 10 ^ k ∧ ¬(w % 10 = 0) ∧ 0 < w ∧ k < 9 ∧
      digitsBE (9 - k) w ≠ [] := by
  obtain ⟨k, w, he, hv, hw, hw0, hk⟩ := fracGo_strip 9 ns h1 (by norm_num; omega)
  have hne : digitsBE (9 - k) w ≠ [] := by
    have := digitsBE_length (9 - k) w
    intro hcon
    rw [hcon] at this
    simp at this
    omega
  refine ⟨k, w, ?_, hv, hw, hw0, hk, hne⟩
  unfold fracBytes
  rw [he]
  match hm : digitsBE (9 - k) w with
  | [] => exact absurd hm hne
  | c :: cs => rfl

/-! ## Binary codec

Model of `time.Time.MarshalBinary` / `UnmarshalBinary` (format
version 1, with the version-2 sub-minute-offset extension): a version
byte, eight bytes of big-endian two's-complement internal seconds, four
bytes of nanoseconds, two bytes of zone offset in minutes (`-1`
denoting UTC), and for version 2 one byte of offset seconds. -/

/-- Model of `time.FixedZone`. -/
def fixedZone (name : String) (off : Int) : Location := ⟨name, off, []⟩

/-- Big-endian bytes of an unsigned 64-bit value. -/
def byteSplit8 (u : Int) : List Int :=
  [u / 72057594037927936 % 256, u / 281474976710656 % 256, u / 1099511627776 % 256,
   u / 4294967296 % 256, u / 16777216 % 256, u / 65536 % 256, u / 256 % 256, u % 256]

/-- Big-endian bytes of an unsigned 32-bit value. -/
def byteSplit4 (u : Int) : List Int :=
  [u / 16777216 % 256, u / 65536 % 256, u / 256 % 256, u % 256]

def goMarshalBinary (t : GoTime) : Except String (List Int) :=
  if t.loc = utcLoc then
    .ok (1 :: (byteSplit8 (t.sec % 18446744073709551616) ++
      byteSplit4 (t.nsec % 4294967296) ++ [255, 255]))
  else
    let off := lookupOff t.loc t.unixSec
    let version : Int := if goRem off 60 ≠ 0 then 2 else 1
    let offMin := goQuo off 60
    if offMin < -32768 ∨ offMin = -1 ∨ 32767 < offMin then
      .error "Time.MarshalBinary: unexpected zone offset"
    else
      .ok (version :: (byteSplit8 (t.sec % 18446744073709551616) ++
        byteSplit4 (t.nsec % 4294967296) ++
        [offMin % 65536 / 256, offMin % 65536 % 256] ++
        (if version = 2 then [goRem off 60 % 256] else [])))

/-- Decode the fixed tail of the binary format (seconds, nanoseconds,
offset), reconstructing the location as Go does: UTC for offset `-60`
seconds, the local zone when its offset matches, a fixed zone
otherwise. -/
def unmarshalBinTail (s7 s6 s5 s4 s3 s2 s1 s0 n3 n2 n1 n0 o1 o0 extraSec : Int) :
    Except String GoTime :=
  let us := s7 * 72057594037927936 + s6 * 281474976710656 + s5 * 1099511627776 +
    s4 * 4294967296 + s3 * 16777216 + s2 * 65536 + s1 * 256 + s0
  let sec := if us < 9223372036854775808 then us else us - 18446744073709551616
  let un := n3 * 16777216 + n2 * 65536 + n1 * 256 + n0
  let nsec := if un < 2147483648 then un else un - 4294967296
  let uo := o1 * 256 + o0
  let om := if uo < 32768 then uo else uo - 65536
  let offset := om * 60 + extraSec
  if offset = -60 then .ok ⟨sec, nsec, utcLoc⟩
  else if lookupOff localLoc (sec - unixToInternal) = offset then .ok ⟨sec, nsec, localLoc⟩
  else .ok ⟨sec, nsec, fixedZone "" offset⟩

def goUnmarshalBinary (data : List Int) : Except String GoTime :=
  match data with
  | [] => .error "Time.UnmarshalBinary: no data"
  | version :: rest =>
    if version = 1 then
      match rest with
      | [s7, s6, s5, s4, s3, s2, s1, s0, n3, n2, n1, n0, o1, o0] =>
        unmarshalBinTail s7 s6 s5 s4 s3 s2 s1 s0 n3 n2 n1 n0 o1 o0 0
      | _ => .error "Time.UnmarshalBinary: invalid length"
    else if version = 2 then
      match rest with
      | [s7, s6, s5, s4, s3, s2, s1, s0, n3, n2, n1, n0, o1, o0, os] =>
        unmarshalBinTail s7 s6 s5 s4 s3 s2 s1 s0 n3 n2 n1 n0 o1 o0
          (if os < 128 then os else os - 256)
      | _ => .error "Time.UnmarshalBinary: invalid length"
    else .error "Time.UnmarshalBinary: unsupported version"

theorem goUnmarshalBinary_v1 (s7 s6 s5 s4 s3 s2 s1 s0 n3 n2 n1 n0 o1 o0 : Int) :
    goUnmarshalBinary [1, s7, s6, s5, s4, s3, s2, s1, s0, n3, n2, n1, n0, o1, o0] =
      unmarshalBinTail s7 s6 s5 s4 s3 s2 s1 s0 n3 n2 n1 n0 o1 o0 0 := rfl

theorem goBinary_roundtrip (t : GoTime) (hloc : t.loc = utcLoc)
    (hs1 : -9223372036854775808 ≤ t.sec) (hs2 : t.sec < 9223372036854775808)
    (hn1 : 0 ≤ t.nsec) (hn2 : t.nsec < 1000000000) :
    goMarshalBinary t = .ok (1 :: (byteSplit8 (t.sec % 18446744073709551616) ++
      byteSplit4 (t.nsec % 4294967296) ++ [255, 255])) ∧
    goUnmarshalBinary (1 :: (byteSplit8 (t.sec % 18446744073709551616) ++
      byteSplit4 (t.nsec % 4294967296) ++ [255, 255])) = .ok ⟨t.sec, t.nsec, utcLoc⟩ := by
  constructor
  · simp only [goMarshalBinary, hloc, if_pos]
  · rw [show (1 :: (byteSplit8 (t.sec % 18446744073709551616) ++
      byteSplit4 (t.nsec % 4294967296) ++ [255, 255])) =
      [1, t.sec % 18446744073709551616 / 72057594037927936 % 256,
        t.sec % 18446744073709551616 / 281474976710656 % 256,
        t.sec % 18446744073709551616 / 1099511627776 % 256,
        t.sec % 18446744073709551616 / 4294967296 % 256,
        t.sec % 18446744073709551616 / 16777216 % 256,
        t.sec % 18446744073709551616 / 65536 % 256,
        t.sec % 18446744073709551616 / 256 % 256,
        t.sec % 18446744073709551616 % 256,
        t.nsec % 4294967296 / 16777216 % 256,
        t.nsec % 4294967296 / 65536 % 256,
        t.nsec % 4294967296 / 256 % 256,
        t.nsec % 4294967296 % 256, 255, 255] from rfl]
    rw [goUnmarshalBinary_v1]
    simp only [unmarshalBinTail]
    split_ifs <;> (try omega) <;>
      (rw [Except.ok.injEq, GoTime.mk.injEq]) <;>
      refine ⟨by omega, by omega, rfl⟩

/-! ## RFC 3339 text codec

Model of the `RFC3339Nano` rendering used by `time.Time.MarshalJSON`
(`appendStrictRFC3339`) and of the strict parser used by
`UnmarshalJSON` (`parseRFC3339`).  Text is a byte list; parse errors
are collapsed to a single message, as no claim observes their text. -/

/-- Zone suffix: `Z` for offset zero, otherwise sign, two-digit hours,
colon, two-digit minutes of the offset truncated to whole minutes. -/
def zoneBytes (off : Int) : List Int :=
  if off = 0 then [90]
  else
    let zone := goQuo off 60
    let z := if zone < 0 then -zone else zone
    (if zone < 0 then 45 else 43) :: (digitsBE 2 (z / 60) ++ [58] ++ digitsBE 2 (z % 60))

/-- The RFC 3339 (nanosecond precision) text of `t` in its location. -/
def rfc3339Bytes (t : GoTime) : List Int :=
  digitsBE 4 t.dateTuple.1 ++ [45] ++ digitsBE 2 t.dateTuple.2.1 ++ [45] ++
  digitsBE 2 t.dateTuple.2.2 ++ [84] ++ digitsBE 2 t.clockTuple.1 ++ [58] ++
  digitsBE 2 t.clockTuple.2.1 ++ [58] ++ digitsBE 2 t.clockTuple.2.2 ++
  fracBytes t.nsec ++ zoneBytes (lookupOff t.loc t.unixSec)

/-- Model of `time.Time.MarshalJSON`: quoted strict RFC 3339 text;
errors when the year does not fit four digits or the zone hour does
not fit `[0,23]`. -/
def goMarshalJSON (t : GoTime) : Except String (List Int) :=
  if t.dateTuple.1 < 0 ∨ 9999 < t.dateTuple.1 then
    .error "Time.MarshalJSON: year outside of range [0,9999]"
  else if 24 ≤ (if goQuo (lookupOff t.loc t.unixSec) 60 < 0
      then -(goQuo (lookupOff t.loc t.unixSec) 60)
      else goQuo (lookupOff t.loc t.unixSec) 60) / 60 then
    .error "Time.MarshalJSON: timezone hour outside of range [0,23]"
  else .ok (34 :: (rfc3339Bytes t ++ [34]))

/-- Consume one expected byte. -/
def expectByte (c : Int) : List Int → Option (List Int)
  | x :: rest => if x = c then some rest else none
  | [] => none

/-- Optional fractional-second part: a dot followed by digits, of
which the first nine are significant (Go's `parseNanoseconds`). -/
def parseFrac (b : List Int) : Option (Int × List Int) :=
  match b with
  | [] => some (0, [])
  | c :: rest =>
    if c = 46 then
      (fun ds =>
        if ds.length = 0 then none
        else some (valFrom 0 (ds.take 9) * 10 ^ (9 - (ds.take 9).length), rest.drop ds.length))
      (rest.takeWhile fun x => decide (48 ≤ x ∧ x ≤ 57))
    else some (0, c :: rest)

/-- Zone suffix parser: `Z`, or sign and `hh:mm` with `hh ≤ 23`,
`mm ≤ 59`, consuming the entire remaining input. -/
def parseZone (b : List Int) : Option Int :=
  match b with
  | [] => none
  | sign :: rest =>
    if sign = 90 ∧ rest = [] then some 0
    else if sign = 43 ∨ sign = 45 then
      (parseDigitsAcc 2 0 rest).bind fun p =>
        (expectByte 58 p.2).bind fun r2 =>
          (parseDigitsAcc 2 0 r2).bind fun q =>
            if q.2 = [] ∧ p.1 ≤ 23 ∧ q.1 ≤ 59 then
              some ((p.1 * 3600 + q.1 * 60) * (if sign = 45 then -1 else 1))
            else none
    else none

/-- Date part of the strict RFC 3339 parser: `yyyy-mm-dd`. -/
def parseDate (b : List Int) : Option (Int × Int × Int × List Int) :=
  (parseDigitsAcc 4 0 b).bind fun py =>
    (expectByte 45 py.2).bind fun b2 =>
      (parseDigitsAcc 2 0 b2).bind fun pm =>
        (expectByte 45 pm.2).bind fun b4 =>
          (parseDigitsAcc 2 0 b4).bind fun pd =>
            some (py.1, pm.1, pd.1, pd.2)

/-- Clock part of the strict RFC 3339 parser: `Thh:mm:ss`. -/
def parseClock (b : List Int) : Option (Int × Int × Int × List Int) :=
  (expectByte 84 b).bind fun b1 =>
    (parseDigitsAcc 2 0 b1).bind fun ph =>
      (expectByte 58 ph.2).bind fun b3 =>
        (parseDigitsAcc 2 0 b3).bind fun pm =>
          (expectByte 58 pm.2).bind fun b5 =>
            (parseDigitsAcc 2 0 b5).bind fun ps =>
              some (ph.1, pm.1, ps.1, ps.2)

/-- Model of Go's strict RFC 3339 parser: fixed-width fields with
range checks, optional fraction, zone suffix; the instant is the wall
clock minus the zone offset. -/
def parseRFC3339 (b : List Int) : Option GoTime :=
  (parseDate b).bind fun pd =>
    (parseClock pd.2.2.2).bind fun pc =>
      if 1 ≤ pd.2.1 ∧ pd.2.1 ≤ 12 ∧ 1 ≤ pd.2.2.1 ∧
          pd.2.2.1 ≤ daysInMonth pd.1 pd.2.1 ∧
          pc.1 ≤ 23 ∧ pc.2.1 ≤ 59 ∧ pc.2.2.1 ≤ 59 then
        (parseFrac pc.2.2.2).bind fun pf =>
          (parseZone pf.2).bind fun off =>
            (fun wall =>
              some ⟨wall - off, pf.1,
                if off = 0 then utcLoc
                else if lookupOff localLoc (wall - off - unixToInternal) = off then localLoc
                else fixedZone "" off⟩)
            ((daysFromCivil pd.1 pd.2.1 pd.2.2.1 + 719162) * 86400 +
              pc.1 * 3600 + pc.2.1 * 60 + pc.2.2.1)
      else none

/-- Model of `time.Time.UnmarshalJSON` applied to a fresh zero value
(the wrapper's usage): `null` keeps the zero value; otherwise the
quoted text is parsed strictly. -/
def goTimeUnmarshalJSON (data : List Int) : Except String GoTime :=
  if data = [110, 117, 108, 108] then .ok ⟨0, 0, utcLoc⟩
  else
    match data with
    | [] => .error "Time.UnmarshalJSON: input is not a JSON string"
    | c :: rest =>
      if c = 34 ∧ rest.getLast? = some 34 then
        match parseRFC3339 rest.dropLast with
        | some g => .ok g
        | none => .error "Time.UnmarshalJSON: parse error"
      else .error "Time.UnmarshalJSON: input is not a JSON string"

theorem someBind {A B : Type} (a : A) (f : A → Option B) : (some a).bind f = f a := rfl

theorem parseFixed (n : Nat) (v : Int) (rest : List Int) (h1 : 0 ≤ v) (h2 : v < 10 ^ n) :
    parseDigitsAcc n 0 (digitsBE n v ++ rest) = some (v, rest) := by
  have hlen := digitsBE_length n v
  have hs := parseDigitsAcc_spec (digitsBE n v) 0 rest (digitsBE_digits n v)
  rw [hlen] at hs
  rw [hs, valFrom_digitsBE n 0 v h1 h2]
  norm_num

theorem parseFixedNil (n : Nat) (v : Int) (h1 : 0 ≤ v) (h2 : v < 10 ^ n) :
    parseDigitsAcc n 0 (digitsBE n v) = some (v, []) := by
  have hp := parseFixed n v [] h1 h2
  rwa [List.append_nil] at hp

theorem expectByte_cons (c : Int) (rest : List Int) :
    expectByte c (c :: rest) = some rest := by
  simp [expectByte]

theorem takeWhile_digits_append (ds zb : List Int)
    (hds : ∀ c ∈ ds, 48 ≤ c ∧ c ≤ 57)
    (hzb : ∀ c, zb.head? = some c → ¬(48 ≤ c ∧ c ≤ 57)) :
    (ds ++ zb).takeWhile (fun x => decide (48 ≤ x ∧ x ≤ 57)) = ds := by
  induction ds with
  | nil =>
    simp only [List.nil_append]
    cases zb with
    | nil => rfl
    | cons c rest =>
      simp only [List.takeWhile]
      rw [decide_eq_false (hzb c rfl)]
  | cons a ds ih =>
    simp only [List.cons_append, List.takeWhile]
    rw [decide_eq_true (hds a (by simp))]
    show a :: List.takeWhile (fun x => decide (48 ≤ x ∧ x ≤ 57)) (ds ++ zb) = a :: ds
    rw [ih (fun c hc => hds c (by simp [hc]))]

theorem fracBytes_zero : fracBytes 0 = [] := by
  unfold fracBytes
  rw [fracGo_zero]

theorem parseFrac_fracBytes (ns : Int) (zb : List Int) (h1 : 0 ≤ ns) (h2 : ns < 1000000000)
    (hzb : ∀ c, zb.head? = some c → ¬(48 ≤ c ∧ c ≤ 57) ∧ c ≠ 46) (hne : zb ≠ []) :
    parseFrac (fracBytes ns ++ zb) = some (ns, zb) := by
  rcases eq_or_lt_of_le h1 with hz | hpos
  · rw [← hz, fracBytes_zero, List.nil_append]
    cases zb with
    | nil => exact absurd rfl hne
    | cons c rest =>
      simp only [parseFrac]
      rw [if_neg (hzb c rfl).2]
  · obtain ⟨k, w, hfb, hv, hw10, hwpos, hk9, hdne⟩ := fracBytes_ne ns hpos h2
    rw [hfb]
    have hlen := digitsBE_length (9 - k) w
    have htw := takeWhile_digits_append (digitsBE (9 - k) w) zb
      (digitsBE_digits (9 - k) w) (fun c hc => (hzb c hc).1)
    simp only [List.cons_append, parseFrac, if_true]
    rw [htw]
    have hcond : ¬((digitsBE (9 - k) w).length = 0) := by
      rw [hlen]
      omega
    rw [if_neg hcond]
    have htake : (digitsBE (9 - k) w).take 9 = digitsBE (9 - k) w :=
      List.take_of_length_le (by rw [hlen]; omega)
    rw [htake, hlen]
    have hwlt : w < 10 ^ (9 - k) := by
      have h9 : (10 : Int) ^ 9 = 10 ^ (9 - k) * 10 ^ k := by
        rw [← pow_add]
        congr 1
        omega
      have hkpos : (0 : Int) < 10 ^ k := by positivity
      nlinarith [hv, h2, hkpos]
    rw [valFrom_digitsBE (9 - k) 0 w (by omega) hwlt, zero_mul, zero_add]
    have hdrop := List.drop_left (digitsBE (9 - k) w) zb
    rw [hlen] at hdrop
    rw [hdrop]
    have hkk : 9 - (9 - k) = k := by omega
    rw [hkk]
    rw [Option.some.injEq, Prod.mk.injEq]
    exact ⟨by omega, rfl⟩

theorem parseZone_zoneBytes (off : Int) (hom : goRem off 60 = 0)
    (hb1 : -86340 ≤ off) (hb2 : off ≤ 86340) :
    parseZone (zoneBytes off) = some off := by
  by_cases h0 : off = 0
  · rw [h0]
    rfl
  · have hq : off = goQuo off 60 * 60 := by
      have hrr := hom
      unfold goRem at hrr
      omega
    obtain ⟨z, hz, hzr⟩ : ∃ z, goQuo off 60 = z ∧ z * 60 = off := ⟨_, rfl, by omega⟩
    have hzb : -1439 ≤ z ∧ z ≤ 1439 ∧ z ≠ 0 := by
      refine ⟨by omega, by omega, ?_⟩
      intro hc
      rw [hc] at hzr
      omega
    simp only [zoneBytes]
    rw [if_neg h0, hz]
    by_cases hneg : z < 0
    · rw [if_pos hneg, if_pos hneg]
      norm_num [parseZone]
      rw [parseFixed 2 (-z / 60) _ (by omega) (by omega)]
      simp only [someBind, fstPair, sndPair, List.cons_append, List.nil_append]
      rw [expectByte_cons]
      simp only [someBind]
      rw [parseFixedNil 2 (-z % 60) (by omega) (by omega)]
      simp only [someBind, fstPair, sndPair]
      split_ifs with hF
      · rw [Option.some.injEq]
        omega
      · exfalso
        simp at hF
        omega
    · rw [if_neg hneg, if_neg hneg]
      norm_num [parseZone]
      rw [parseFixed 2 (z / 60) _ (by omega) (by omega)]
      simp only [someBind, fstPair, sndPair, List.cons_append, List.nil_append]
      rw [expectByte_cons]
      simp only [someBind]
      rw [parseFixedNil 2 (z % 60) (by omega) (by omega)]
      simp only [someBind, fstPair, sndPair]
      split_ifs with hF
      · rw [Option.some.injEq]
        omega
      · exfalso
        simp at hF
        omega

theorem clockSplit_spec (sod : Int) (h1 : 0 ≤ sod) (h2 : sod < 86400) :
    (clockSplit sod).1 * 3600 + (clockSplit sod).2.1 * 60 + (clockSplit sod).2.2 = sod ∧
    0 ≤ (clockSplit sod).1 ∧ (clockSplit sod).1 ≤ 23 ∧
    0 ≤ (clockSplit sod).2.1 ∧ (clockSplit sod).2.1 ≤ 59 ∧
    0 ≤ (clockSplit sod).2.2 ∧ (clockSplit sod).2.2 ≤ 59 := by
  simp only [clockSplit, fstPair, sndPair]
  omega


theorem daysInMonth_le (y m : Int) : daysInMonth y m ≤ 31 := by
  unfold daysInMonth
  split_ifs <;> omega

theorem zoneBytes_head (off : Int) :
    ∀ c, (zoneBytes off).head? = some c → ¬(48 ≤ c ∧ c ≤ 57) ∧ c ≠ 46 := by
  intro c hc
  unfold zoneBytes at hc
  split_ifs at hc <;> simp only [List.head?, Option.some.injEq] at hc <;> omega

theorem zoneBytes_ne (off : Int) : zoneBytes off ≠ [] := by
  unfold zoneBytes
  split_ifs <;> simp

theorem parseRFC3339_roundtrip (t : GoTime)
    (hn1 : 0 ≤ t.nsec) (hn2 : t.nsec < 1000000000)
    (hy1 : 0 ≤ t.dateTuple.1) (hy2 : t.dateTuple.1 ≤ 9999)
    (hom : goRem (lookupOff t.loc t.unixSec) 60 = 0)
    (ho1 : -86340 ≤ lookupOff t.loc t.unixSec) (ho2 : lookupOff t.loc t.unixSec ≤ 86340) :
    ∃ g, parseRFC3339 (rfc3339Bytes t) = some g ∧ g.sec = t.sec ∧ g.nsec = t.nsec := by
  obtain ⟨y, mo, d, hdt⟩ : ∃ a b c, t.dateTuple = (a, b, c) := ⟨_, _, _, rfl⟩
  have hdays := daysFromCivil_civilFromDays (t.locSec / 86400 - 719162) y mo d
    (show civilFromDays (t.locSec / 86400 - 719162) = (y, mo, d) from hdt)
  obtain ⟨hz, hm1, hm2, hd1, hd2⟩ := hdays
  obtain ⟨h, mi, sec, hct⟩ : ∃ a b c, t.clockTuple = (a, b, c) := ⟨_, _, _, rfl⟩
  have hclock := clockSplit_spec (t.locSec % 86400) (by omega) (by omega)
  rw [show clockSplit (t.locSec % 86400) = (h, mi, sec) from hct] at hclock
  simp only [fstPair, sndPair] at hclock
  rw [hdt] at hy1 hy2
  simp only [fstPair] at hy1 hy2
  have hd31 : d ≤ 31 := le_trans hd2 (daysInMonth_le y mo)
  unfold rfc3339Bytes
  rw [hdt, hct]
  simp only [fstPair, sndPair, List.append_assoc, List.singleton_append,
    List.cons_append, List.nil_append]
  simp only [parseRFC3339, parseDate, parseClock]
  rw [parseFixed 4 y _ hy1 (by norm_num; omega)]
  simp only [someBind, fstPair, sndPair]
  rw [expectByte_cons]
  simp only [someBind]
  rw [parseFixed 2 mo _ (by omega) (by norm_num; omega)]
  simp only [someBind, fstPair, sndPair]
  rw [expectByte_cons]
  simp only [someBind]
  rw [parseFixed 2 d _ (by omega) (by norm_num; omega)]
  simp only [someBind, fstPair, sndPair]
  rw [expectByte_cons]
  simp only [someBind]
  rw [parseFixed 2 h _ (by omega) (by norm_num; omega)]
  simp only [someBind, fstPair, sndPair]
  rw [expectByte_cons]
  simp only [someBind]
  rw [parseFixed 2 mi _ (by omega) (by norm_num; omega)]
  simp only [someBind, fstPair, sndPair]
  rw [expectByte_cons]
  simp only [someBind]
  rw [parseFixed 2 sec _ (by omega) (by norm_num; omega)]
  simp only [someBind, fstPair, sndPair]
  have hcheck : 1 ≤ mo ∧ mo ≤ 12 ∧ 1 ≤ d ∧ d ≤ daysInMonth y mo ∧
      h ≤ 23 ∧ mi ≤ 59 ∧ sec ≤ 59 :=
    ⟨hm1, hm2, hd1, hd2, hclock.2.2.1, hclock.2.2.2.2.1, hclock.2.2.2.2.2.2⟩
  rw [if_pos hcheck]
  rw [parseFrac_fracBytes t.nsec (zoneBytes (lookupOff t.loc t.unixSec)) hn1 hn2
    (zoneBytes_head (lookupOff t.loc t.unixSec)) (zoneBytes_ne (lookupOff t.loc t.unixSec))]
  simp only [someBind, fstPair, sndPair]
  rw [parseZone_zoneBytes (lookupOff t.loc t.unixSec) hom ho1 ho2]
  simp only [someBind]
  refine ⟨_, rfl, ?_, rfl⟩
  show (daysFromCivil y mo d + 719162) * 86400 + h * 3600 + mi * 60 + sec -
    lookupOff t.loc t.unixSec = t.sec
  have hls : t.locSec = t.sec + lookupOff t.loc t.unixSec := rfl
  have hcs := hclock.1
  omega

/-! ## Layout formatting

Model of the Go reference-layout engine (`Format`), restricted to the
standard verbs the repository's code and tests use (`2006`, `01`, `02`,
`15`, `04`, `05`, `MST`, `Z07:00`); other layout bytes are copied
verbatim.  Zone abbreviations are modelled by the location name. -/

/-- UTF-8 bytes of a string (ASCII names in this model). -/
def strBytes (s : String) : List Int := s.toList.map fun c => (c.toNat : Int)

def goFormat (layout : List Int) (t : GoTime) : List Int :=
  match layout with
  | [] => []
  | 50 :: 48 :: 48 :: 54 :: rest => digitsBE 4 t.dateTuple.1 ++ goFormat rest t
  | 48 :: 49 :: rest => digitsBE 2 t.dateTuple.2.1 ++ goFormat rest t
  | 48 :: 50 :: rest => digitsBE 2 t.dateTuple.2.2 ++ goFormat rest t
  | 49 :: 53 :: rest => digitsBE 2 t.clockTuple.1 ++ goFormat rest t
  | 48 :: 52 :: rest => digitsBE 2 t.clockTuple.2.1 ++ goFormat rest t
  | 48 :: 53 :: rest => digitsBE 2 t.clockTuple.2.2 ++ goFormat rest t
  | 77 :: 83 :: 84 :: rest => strBytes t.loc.name ++ goFormat rest t
  | 90 :: 48 :: 55 :: 58 :: 48 :: 48 :: rest =>
    zoneBytes (lookupOff t.loc t.unixSec) ++ goFormat rest t
  | c :: rest => c :: goFormat rest t

/-! ## Database scalar values

Model of the `driver.Value` / `sql.Scanner` input domain: the incoming
scalar is a `time.Time`, nil, or one of the other driver scalar
types. -/

inductive SQLValue where
  | null
  | timeVal (t : GoTime)
  | intVal (n : Int)
  | boolVal (b : Bool)
  | strVal (s : String)
  | bytesVal (bs : List Int)
deriving Repr, DecidableEq

/-- The Go type name of a scalar as printed by `%T`. -/
def sqlTypeName : SQLValue → String
  | .null => "<nil>"
  | .timeVal _ => "time.Time"
  | .intVal _ => "int64"
  | .boolVal _ => "bool"
  | .strVal _ => "string"
  | .bytesVal _ => "[]uint8"

/-! ## The meridian wrapper

Shallow embedding of the public surface of the `meridian` package
(`meridian.go`): `Time[TZ]` with its constructors, conversions,
comparisons, extraction and serialization methods.  The `Timezone`
type parameter is modelled by the resolved `Location` value itself
(each generated zone package's `Timezone.Location()` returns a fixed
location). -/

structure Time (tz : Location) where
  utcTime : GoTime
deriving Repr, DecidableEq

/-- The `Moment` interface: anything that can yield its UTC instant.
`time.Time` (here `GoTime`) and every `Time[TZ]` implement it. -/
class Moment (A : Type) where
  utc : A → GoTime

instance : Moment GoTime := ⟨GoTime.utc⟩

instance {tz : Location} : Moment (Time tz) := ⟨fun t => t.utcTime⟩

/-- `meridian.Date`: interpret calendar components in the zone of the
type parameter, store the corresponding instant as UTC. -/
def Date (tz : Location) (year month day hour minute sec nsec : Int) : Time tz :=
  ⟨(goDate year month day hour minute sec nsec tz).utc⟩

/-- `meridian.FromMoment`: explicit conversion from any `Moment`. -/
def FromMoment {A : Type} [Moment A] (tz : Location) (m : A) : Time tz :=
  ⟨Moment.utc m⟩

/-- `meridian.Unix`. -/
def Unix (tz : Location) (sec nsec : Int) : Time tz := ⟨(goUnix sec nsec).utc⟩

/-- `meridian.UnixMilli`. -/
def UnixMilli (tz : Location) (msec : Int) : Time tz := ⟨(goUnixMilli msec).utc⟩

/-- `meridian.UnixMicro`. -/
def UnixMicro (tz : Location) (usec : Int) : Time tz := ⟨(goUnixMicro usec).utc⟩

/-- The zero value `Time[TZ]{}`: a zero `time.Time` (nil location
behaves as UTC). -/
def zeroTime (tz : Location) : Time tz := ⟨⟨0, 0, utcLoc⟩⟩

/-- `Time[TZ].UTC`: the stored zone-neutral `time.Time`. -/
def Time.UTC {tz : Location} (t : Time tz) : GoTime := t.utcTime

/-- `nativeTimeInLocation`: the stored instant in the type parameter's
resolved location. -/
def Time.nativeTimeInLocation {tz : Location} (t : Time tz) : GoTime :=
  t.utcTime.inLoc tz

/-- `Time[TZ].Format`. -/
def Time.Format {tz : Location} (t : Time tz) (layout : List Int) : List Int :=
  goFormat layout t.nativeTimeInLocation

/-- `Time[TZ].AddDate`. -/
def Time.AddDate {tz : Location} (t : Time tz) (years months days : Int) : Time tz :=
  ⟨t.utcTime.addDate years months days⟩

/-- `Time[TZ].After`. -/
def Time.After {tz : Location} {A : Type} [Moment A] (t : Time tz) (u : A) : Bool :=
  t.utcTime.after (Moment.utc u)

/-- `Time[TZ].Before`. -/
def Time.Before {tz : Location} {A : Type} [Moment A] (t : Time tz) (u : A) : Bool :=
  t.utcTime.before (Moment.utc u)

/-- `Time[TZ].Equal`. -/
def Time.Equal {tz : Location} {A : Type} [Moment A] (t : Time tz) (u : A) : Bool :=
  t.utcTime.equal (Moment.utc u)

/-- `Time[TZ].Compare`. -/
def Time.Compare {tz : Location} {A : Type} [Moment A] (t : Time tz) (u : A) : Int :=
  t.utcTime.compare (Moment.utc u)

/-- `Time[TZ].IsZero`. -/
def Time.IsZero {tz : Location} (t : Time tz) : Bool := t.utcTime.isZero

/-- `Time[TZ].Date`: year, month, day in the timezone's location. -/
def Time.Date {tz : Location} (t : Time tz) : Int × Int × Int :=
  t.nativeTimeInLocation.dateTuple

/-- `Time[TZ].Clock`: hour, minute, second in the timezone's location. -/
def Time.Clock {tz : Location} (t : Time tz) : Int × Int × Int :=
  t.nativeTimeInLocation.clockTuple

/-- `Time[TZ].Nanosecond`. -/
def Time.Nanosecond {tz : Location} (t : Time tz) : Int :=
  t.nativeTimeInLocation.nanosecond

/-- `Time[TZ].MarshalJSON`: RFC 3339 in the timezone's location. -/
def Time.MarshalJSON {tz : Location} (t : Time tz) : Except String (List Int) :=
  goMarshalJSON t.nativeTimeInLocation

/-- `Time[TZ].UnmarshalJSON`: parse into a fresh `time.Time`, store its
UTC value; on error the receiver is unchanged. -/
def Time.UnmarshalJSON {tz : Location} (t : Time tz) (data : List Int) :
    Time tz × Option String :=
  match goTimeUnmarshalJSON data with
  | .ok g => (⟨g.utc⟩, none)
  | .error e => (t, some e)

/-- `Time[TZ].MarshalBinary`. -/
def Time.MarshalBinary {tz : Location} (t : Time tz) : Except String (List Int) :=
  goMarshalBinary t.utcTime

/-- `Time[TZ].UnmarshalBinary`: the decoded `time.Time` replaces the
stored value; on error the receiver is unchanged. -/
def Time.UnmarshalBinary {tz : Location} (t : Time tz) (data : List Int) :
    Time tz × Option String :=
  match goUnmarshalBinary data with
  | .ok g => (⟨g⟩, none)
  | .error e => (t, some e)

/-- `Time[TZ].Value` (`driver.Valuer`): the stored UTC `time.Time`,
never an error. -/
def Time.Value {tz : Location} (t : Time tz) : GoTime × Option String :=
  (t.utcTime, none)

/-- `Time[TZ].Scan` (`sql.Scanner`): nil resets to the zero value, a
`time.Time` is stored as UTC, anything else is rejected. -/
def Time.Scan {tz : Location} (t : Time tz) (v : SQLValue) : Time tz × Option String :=
  match v with
  | .null => (⟨⟨0, 0, utcLoc⟩⟩, none)
  | .timeVal g => (⟨g.utc⟩, none)
  | other => (t, some ("cannot scan type " ++ sqlTypeName other ++ " into meridian.Time"))

/-- Well-formedness of a stored wrapper value: every value produced by
the package constructors stores a UTC-located `time.Time` with
normalized nanoseconds and int64-representable seconds. -/
def Time.WF {tz : Location} (t : Time tz) : Prop :=
  t.utcTime.loc = utcLoc ∧ 0 ≤ t.utcTime.nsec ∧ t.utcTime.nsec < 1000000000 ∧
  -9223372036854775808 ≤ t.utcTime.sec ∧ t.utcTime.sec < 9223372036854775808

/-- Two `GoTime` values denote the same instant (location-blind). -/
def sameInstant (a b : GoTime) : Prop := a.sec = b.sec ∧ a.nsec = b.nsec

/-- The wall-clock Unix second `time.Date` computes before applying the
zone offset. -/
def dateWallUnix (y mo d h mi s : Int) : Int :=
  (daysFromCivil y mo d + 719162) * 86400 + h * 3600 + mi * 60 + s - unixToInternal

/-- A fixed UTC-5 location, as the generated `est`-style packages
resolve for a zone with no transitions in the modelled range. -/
def estFixed : Location := ⟨"EST", -18000, []⟩

/-- A location with a sub-minute standard offset, as IANA zone data
yields for local-mean-time periods (for example UTC-28:54). -/
def lmtLoc : Location := ⟨"LMT", -1734, []⟩

theorem goNorm_id (hi lo base : Int) (h1 : 0 ≤ lo) (h2 : lo < base) :
    goNorm hi lo base = (hi, lo) := by
  unfold goNorm goNormHi
  split_ifs <;> first | rfl | (exfalso; omega)

theorem clockSplit_eq (h mi s : Int) (_hh1 : 0 ≤ h) (_hh2 : h ≤ 23)
    (hm1 : 0 ≤ mi) (hm2 : mi ≤ 59) (hs1 : 0 ≤ s) (hs2 : s ≤ 59) :
    clockSplit (h * 3600 + mi * 60 + s) = (h, mi, s) := by
  unfold clockSplit
  rw [Prod.mk.injEq, Prod.mk.injEq]
  refine ⟨by omega, by omega, by omega⟩

theorem fixedZone_lookup (loc : Location) (h : loc.trans = []) (x : Int) :
    lookupOff loc x = loc.std := by
  unfold lookupOff lookupFull
  rw [h]
  rfl

theorem fixedZone_dateOff (loc : Location) (h : loc.trans = []) (unix : Int) :
    dateOff loc unix = loc.std := by
  unfold dateOff lookupFull
  rw [h]
  show (if loc.std = 0 then 0 else _) = loc.std
  split_ifs <;> first | omega | rfl

theorem goDate_eq (Z : Location) (y mo d h mi s ns : Int)
    (hmo1 : 1 ≤ mo) (hmo2 : mo ≤ 12)
    (hh1 : 0 ≤ h) (hh2 : h ≤ 23) (hmi1 : 0 ≤ mi) (hmi2 : mi ≤ 59)
    (hs1 : 0 ≤ s) (hs2 : s ≤ 59) (hns1 : 0 ≤ ns) (hns2 : ns < 1000000000) :
    goDate y mo d h mi s ns Z =
      ⟨dateWallUnix y mo d h mi s - dateOff Z (dateWallUnix y mo d h mi s) +
        unixToInternal, ns, Z⟩ := by
  unfold goDate
  rw [goNorm_id y (mo - 1) 12 (by omega) (by omega)]
  simp only [fstPair, sndPair]
  rw [goNorm_id s ns 1000000000 (by omega) (by omega)]
  simp only [fstPair, sndPair]
  rw [goNorm_id mi s 60 (by omega) (by omega)]
  simp only [fstPair, sndPair]
  rw [goNorm_id h mi 60 (by omega) (by omega)]
  simp only [fstPair, sndPair]
  rw [goNorm_id d h 24 (by omega) (by omega)]
  simp only [fstPair, sndPair]
  rw [show mo - 1 + 1 = mo by ring]
  rfl

theorem goDate_roundtrip (Z : Location) (y mo d h mi s ns : Int)
    (hmo1 : 1 ≤ mo) (hmo2 : mo ≤ 12) (hd1 : 1 ≤ d) (hd2 : d ≤ daysInMonth y mo)
    (hh1 : 0 ≤ h) (hh2 : h ≤ 23) (hmi1 : 0 ≤ mi) (hmi2 : mi ≤ 59)
    (hs1 : 0 ≤ s) (hs2 : s ≤ 59) (hns1 : 0 ≤ ns) (hns2 : ns < 1000000000)
    (hcons : lookupOff Z
        (dateWallUnix y mo d h mi s - dateOff Z (dateWallUnix y mo d h mi s)) =
      dateOff Z (dateWallUnix y mo d h mi s)) :
    ((goDate y mo d h mi s ns Z).utc.inLoc Z).dateTuple = (y, mo, d) ∧
    ((goDate y mo d h mi s ns Z).utc.inLoc Z).clockTuple = (h, mi, s) ∧
    ((goDate y mo d h mi s ns Z).utc.inLoc Z).nanosecond = ns := by
  rw [goDate_eq Z y mo d h mi s ns hmo1 hmo2 hh1 hh2 hmi1 hmi2 hs1 hs2 hns1 hns2]
  have hsec : (((⟨dateWallUnix y mo d h mi s - dateOff Z (dateWallUnix y mo d h mi s) +
      unixToInternal, ns, Z⟩ : GoTime).utc.inLoc Z) : GoTime) =
      ⟨dateWallUnix y mo d h mi s - dateOff Z (dateWallUnix y mo d h mi s) +
        unixToInternal, ns, Z⟩ := rfl
  rw [hsec]
  have hls : (GoTime.locSec ⟨dateWallUnix y mo d h mi s -
      dateOff Z (dateWallUnix y mo d h mi s) + unixToInternal, ns, Z⟩) =
      (daysFromCivil y mo d + 719162) * 86400 + (h * 3600 + mi * 60 + s) := by
    unfold GoTime.locSec GoTime.unixSec
    show dateWallUnix y mo d h mi s - dateOff Z (dateWallUnix y mo d h mi s) +
        unixToInternal +
        lookupOff Z (dateWallUnix y mo d h mi s -
          dateOff Z (dateWallUnix y mo d h mi s) + unixToInternal - unixToInternal) = _
    rw [show dateWallUnix y mo d h mi s - dateOff Z (dateWallUnix y mo d h mi s) +
        unixToInternal - unixToInternal =
        dateWallUnix y mo d h mi s - dateOff Z (dateWallUnix y mo d h mi s) by ring]
    rw [hcons]
    unfold dateWallUnix
    ring
  have hdiv : ((daysFromCivil y mo d + 719162) * 86400 + (h * 3600 + mi * 60 + s)) / 86400 =
      daysFromCivil y mo d + 719162 := by omega
  have hmod : ((daysFromCivil y mo d + 719162) * 86400 + (h * 3600 + mi * 60 + s)) % 86400 =
      h * 3600 + mi * 60 + s := by omega
  refine ⟨?_, ?_, rfl⟩
  · unfold GoTime.dateTuple
    rw [hls, hdiv]
    rw [show daysFromCivil y mo d + 719162 - 719162 = daysFromCivil y mo d by ring]
    exact civilFromDays_daysFromCivil y mo d hmo1 hmo2 hd1 hd2
  · unfold GoTime.clockTuple
    rw [hls, hmod]
    exact clockSplit_eq h mi s hh1 hh2 hmi1 hmi2 hs1 hs2

theorem momentUtc_time {tz : Location} (t : Time tz) : Moment.utc t = t.utcTime := rfl

theorem momentUtc_goTime (g : GoTime) : Moment.utc g = g.utc := rfl

/-- C1: for every `Time[TZ]` value `t` and zones `A`, `B`, converting `t`
(as zone `A`) to zone `B` via `FromMoment` and back to `A` yields a value
whose `UTC()` instant equals `t`'s, and whose `Format` output under any
layout is byte-identical to `t`'s. -/
theorem c1_fromMoment_roundtrip (A B : Location) (t : Time A) :
    (FromMoment A (FromMoment B t)).UTC = t.UTC ∧
    ∀ layout : List Int,
      (FromMoment A (FromMoment B t)).Format layout = t.Format layout :=
  ⟨rfl, fun _ => rfl⟩

/-- C3: two wrapper values of any zones denoting the same instant satisfy
`Equal = true` and `Compare = 0`, and `Before`, `After`, `Equal`, `Compare`
are determined purely by the two UTC instants of their operands. -/
theorem c3_compare_instant_only (A B : Location) (a : Time A) (b : Time B)
    (h : sameInstant a.UTC b.UTC) :
    a.Equal b = true ∧ a.Compare b = 0 ∧
    ∀ (A2 B2 : Location) (a2 : Time A2) (b2 : Time B2),
      sameInstant a2.UTC a.UTC → sameInstant b2.UTC b.UTC →
      a2.Before b2 = a.Before b ∧ a2.After b2 = a.After b ∧
      a2.Equal b2 = a.Equal b ∧ a2.Compare b2 = a.Compare b := by
  obtain ⟨hs, hn⟩ := h
  simp only [Time.UTC] at hs hn
  refine ⟨?_, ?_, ?_⟩
  · simp [Time.Equal, momentUtc_time, GoTime.equal, hs, hn]
  · simp [Time.Compare, momentUtc_time, GoTime.compare, hs, hn]
  · intro A2 B2 a2 b2 ha hb
    obtain ⟨has, han⟩ := ha
    obtain ⟨hbs, hbn⟩ := hb
    simp only [Time.UTC] at has han hbs hbn
    refine ⟨?_, ?_, ?_, ?_⟩ <;>
      simp [Time.Before, Time.After, Time.Equal, Time.Compare, momentUtc_time,
        GoTime.before, GoTime.after, GoTime.equal, GoTime.compare, has, han, hbs, hbn]

theorem c3_compare_instant_only_witness :
    sameInstant (Time.UTC (⟨⟨100, 7, utcLoc⟩⟩ : Time estFixed))
      (Time.UTC (⟨⟨100, 7, utcLoc⟩⟩ : Time utcLoc)) ∧
    Time.Equal (⟨⟨100, 7, utcLoc⟩⟩ : Time estFixed)
      (⟨⟨100, 7, utcLoc⟩⟩ : Time utcLoc) = true ∧
    Time.Compare (⟨⟨100, 7, utcLoc⟩⟩ : Time estFixed)
      (⟨⟨100, 7, utcLoc⟩⟩ : Time utcLoc) = 0 :=
  ⟨⟨rfl, rfl⟩, (c3_compare_instant_only estFixed utcLoc _ _ ⟨rfl, rfl⟩).1,
    (c3_compare_instant_only estFixed utcLoc _ _ ⟨rfl, rfl⟩).2.1⟩

/-- C6: the SQL adapter: `Value` returns the stored zone-neutral `time.Time`
with no error; `Scan` of a `time.Time` stores its UTC conversion with no
error; `Scan` of nil resets to the zero value with no error; `Scan` of any
other type returns the type-mismatch error. -/
theorem c6_sql_adapter {tz : Location} (t : Time tz) (g : GoTime) (v : SQLValue)
    (hv : v ≠ .null ∧ ∀ g2, v ≠ .timeVal g2) :
    t.Value = (t.UTC, none) ∧
    t.Scan (.timeVal g) = (⟨g.utc⟩, none) ∧
    t.Scan .null = (zeroTime tz, none) ∧
    (t.Scan v).2 =
      some ("cannot scan type " ++ sqlTypeName v ++ " into meridian.Time") := by
  refine ⟨rfl, rfl, rfl, ?_⟩
  obtain ⟨hnull, htime⟩ := hv
  cases v with
  | null => exact absurd rfl hnull
  | timeVal g2 => exact absurd rfl (htime g2)
  | intVal n => rfl
  | boolVal b => rfl
  | strVal s => rfl
  | bytesVal bs => rfl

theorem c6_sql_adapter_witness :
    SQLValue.intVal 3 ≠ SQLValue.null ∧
    (Time.Scan (zeroTime utcLoc) (SQLValue.intVal 3)).2 =
      some "cannot scan type int64 into meridian.Time" := by
  have h := c6_sql_adapter (zeroTime utcLoc) ⟨5, 6, utcLoc⟩ (SQLValue.intVal 3)
    ⟨fun hc => SQLValue.noConfusion hc, fun g2 hc => SQLValue.noConfusion hc⟩
  exact ⟨fun hc => SQLValue.noConfusion hc, h.2.2.2⟩

/-- C8: the zero value of every `Time[A]` reports `IsZero = true`, its UTC
instant equals that of the zero value of every `Time[B]`, and for every
wrapper value `IsZero` holds exactly when the stored instant is the
canonical zero instant, independent of zone. -/
theorem c8_zero_value (A B : Location) :
    (zeroTime A).IsZero = true ∧
    sameInstant (zeroTime A).UTC (zeroTime B).UTC ∧
    (zeroTime A).UTC.dateTuple = (1, 1, 1) ∧
    (zeroTime A).UTC.clockTuple = (0, 0, 0) ∧
    ∀ (TZ : Location) (t : Time TZ),
      t.IsZero = true ↔ (t.UTC.sec = 0 ∧ t.UTC.nsec = 0) := by
  refine ⟨rfl, ⟨rfl, rfl⟩, rfl, rfl, ?_⟩
  intro TZ t
  simp [Time.IsZero, GoTime.isZero, Time.UTC, GoTime.utc]

/-- C9: `Scan` is atomic on failure: for every receiver and every incoming
value that is neither nil nor a `time.Time`, `Scan` returns an error and
leaves the receiver exactly as it was. -/
theorem c9_scan_atomic {tz : Location} (t : Time tz) (v : SQLValue)
    (hv : v ≠ .null ∧ ∀ g2, v ≠ .timeVal g2) :
    (t.Scan v).1 = t ∧ (t.Scan v).2.isSome = true := by
  obtain ⟨hnull, htime⟩ := hv
  cases v with
  | null => exact absurd rfl hnull
  | timeVal g2 => exact absurd rfl (htime g2)
  | intVal n => exact ⟨rfl, rfl⟩
  | boolVal b => exact ⟨rfl, rfl⟩
  | strVal s => exact ⟨rfl, rfl⟩
  | bytesVal bs => exact ⟨rfl, rfl⟩

theorem c9_scan_atomic_witness :
    SQLValue.strVal "x" ≠ SQLValue.null ∧
    (Time.Scan (⟨⟨42, 9, utcLoc⟩⟩ : Time estFixed) (SQLValue.strVal "x")).1 =
      (⟨⟨42, 9, utcLoc⟩⟩ : Time estFixed) ∧
    (Time.Scan (⟨⟨42, 9, utcLoc⟩⟩ : Time estFixed) (SQLValue.strVal "x")).2.isSome = true := by
  have h := c9_scan_atomic (⟨⟨42, 9, utcLoc⟩⟩ : Time estFixed) (SQLValue.strVal "x")
    ⟨fun hc => SQLValue.noConfusion hc, fun g2 hc => SQLValue.noConfusion hc⟩
  exact ⟨fun hc => SQLValue.noConfusion hc, h.1, h.2⟩

/-- Modelled from the spec: `AddDate` delegating to the civil-time library's
calendar-aware addition as computed in the resolved zone of the type
parameter. -/
def addDateInZoneSpec {tz : Location} (t : Time tz) (years months days : Int) :
    Time tz :=
  ⟨(GoTime.addDate (t.utcTime.inLoc tz) years months days).utc⟩

/-- C2 counterexample: at the instant 2024-03-01 02:00:00 UTC stored in a
`Time` of the fixed zone UTC-5 (where that instant reads Feb 29, 21:00),
the code's `AddDate(1,0,0)` — calendar arithmetic on the zone-neutral
representation — gives 2025-03-01 02:00:00 UTC, while calendar addition
computed in the resolved zone of the type parameter gives
2025-03-02 02:00:00 UTC: the two disagree. -/
theorem c2_addDate_counterexample :
    (Time.AddDate (⟨⟨63844855200, 0, utcLoc⟩⟩ : Time estFixed) 1 0 0).UTC.sec ≠
      (addDateInZoneSpec (⟨⟨63844855200, 0, utcLoc⟩⟩ : Time estFixed) 1 0 0).UTC.sec := by
  have h1 : (Time.AddDate (⟨⟨63844855200, 0, utcLoc⟩⟩ : Time estFixed) 1 0 0).UTC.sec =
      63876391200 := by rfl
  have h2 : (addDateInZoneSpec (⟨⟨63844855200, 0, utcLoc⟩⟩ : Time estFixed) 1 0 0).UTC.sec =
      63876477600 := by rfl
  rw [h1, h2]
  decide

/-- C2 (amended): `AddDate` performs its calendar arithmetic on the
zone-neutral (UTC) representation: the result instant depends only on the
stored instant, not on the zone type parameter; a calendar amount landing
on a non-existent date normalizes forward (Feb 29, 2024 plus one year is
Mar 1, 2025). -/
theorem c2_addDate_amended (A B : Location) (t : Time A) (u : Time B)
    (years months days : Int) (h : t.UTC = u.UTC) :
    (t.AddDate years months days).UTC = (u.AddDate years months days).UTC ∧
    (Time.AddDate (Date utcLoc 2024 2 29 10 0 0 0) 1 0 0).UTC =
      (Date utcLoc 2025 3 1 10 0 0 0).UTC := by
  constructor
  · simp only [Time.AddDate, Time.UTC] at *
    rw [h]
  · rfl

theorem c2_addDate_amended_witness :
    Time.UTC (⟨⟨63844855200, 5, utcLoc⟩⟩ : Time utcLoc) =
      Time.UTC (⟨⟨63844855200, 5, utcLoc⟩⟩ : Time estFixed) ∧
    (Time.AddDate (⟨⟨63844855200, 5, utcLoc⟩⟩ : Time utcLoc) 2 3 4).UTC =
      (Time.AddDate (⟨⟨63844855200, 5, utcLoc⟩⟩ : Time estFixed) 2 3 4).UTC :=
  ⟨rfl, (c2_addDate_amended utcLoc estFixed
    (⟨⟨63844855200, 5, utcLoc⟩⟩ : Time utcLoc)
    (⟨⟨63844855200, 5, utcLoc⟩⟩ : Time estFixed) 2 3 4 rfl).1⟩

/-- C4: `UnixMilli[TZ](N)` stores the same instant as
`Unix[TZ](N/1000, (N mod 1000)` milliseconds as nanoseconds`)` (Go's
truncating division), and values built from equivalent offsets at
seconds, milliseconds and microseconds precision have equal UTC instants
and compare equal. -/
theorem c4_epoch_constructors (tz : Location) (N s : Int) :
    (UnixMilli tz N).UTC = (Unix tz (goQuo N 1000) (goRem N 1000 * 1000000)).UTC ∧
    (UnixMilli tz N).Equal (Unix tz (goQuo N 1000) (goRem N 1000 * 1000000)) = true ∧
    (Unix tz s 0).UTC = (UnixMilli tz (s * 1000)).UTC ∧
    (Unix tz s 0).UTC = (UnixMicro tz (s * 1000000)).UTC ∧
    (Unix tz s 0).Equal (UnixMilli tz (s * 1000)) = true ∧
    (Unix tz s 0).Compare (UnixMicro tz (s * 1000000)) = 0 := by
  have hq3 : goQuo (s * 1000) 1000 = s := by unfold goQuo; split_ifs <;> omega
  have hq6 : goQuo (s * 1000000) 1000000 = s := by unfold goQuo; split_ifs <;> omega
  have hr3 : goRem (s * 1000) 1000 = 0 := by unfold goRem; rw [hq3]; ring
  have hr6 : goRem (s * 1000000) 1000000 = 0 := by unfold goRem; rw [hq6]; ring
  refine ⟨rfl, ?_, ?_, ?_, ?_, ?_⟩ <;>
    simp [Time.Equal, Time.Compare, momentUtc_time, GoTime.equal, GoTime.compare,
      Unix, UnixMilli, UnixMicro, goUnixMilli, goUnixMicro, Time.UTC, hq3, hq6, hr3, hr6]

/-- C7: binary encoding of any well-formed `Time[A]` succeeds, decoding the
bytes into a `Time[B]` receiver succeeds and restores exactly the stored
instant including nanoseconds; the byte encoding is determined by the
instant alone, so the originating zone is not persisted. -/
theorem c7_binary_roundtrip (A B : Location) (t : Time A) (recv : Time B)
    (hwf : t.WF) :
    ∃ bs, t.MarshalBinary = .ok bs ∧
      (recv.UnmarshalBinary bs).2 = none ∧
      sameInstant (recv.UnmarshalBinary bs).1.UTC t.UTC ∧
      ∀ u : Time B, u.WF → sameInstant u.UTC t.UTC → u.MarshalBinary = .ok bs := by
  obtain ⟨hloc, hn1, hn2, hs1, hs2⟩ := hwf
  obtain ⟨hm, hu⟩ := goBinary_roundtrip t.utcTime hloc hs1 hs2 hn1 hn2
  have hrec : recv.UnmarshalBinary (1 :: (byteSplit8 (t.utcTime.sec % 18446744073709551616) ++
      byteSplit4 (t.utcTime.nsec % 4294967296) ++ [255, 255])) =
      (⟨⟨t.utcTime.sec, t.utcTime.nsec, utcLoc⟩⟩, none) := by
    unfold Time.UnmarshalBinary
    rw [hu]
  refine ⟨_, hm, ?_, ?_, ?_⟩
  · rw [hrec]
  · rw [hrec]
    exact ⟨rfl, rfl⟩
  · intro u hwfu hsu
    obtain ⟨hloc2, hn12, hn22, hs12, hs22⟩ := hwfu
    obtain ⟨hss, hnn⟩ := hsu
    simp only [Time.UTC] at hss hnn
    have hm2 := (goBinary_roundtrip u.utcTime hloc2 hs12 hs22 hn12 hn22).1
    show goMarshalBinary u.utcTime = _
    rw [hm2, hss, hnn]

theorem c7_binary_roundtrip_witness :
    Time.WF (⟨⟨1000000123, 456, utcLoc⟩⟩ : Time estFixed) ∧
    ∃ bs, Time.MarshalBinary (⟨⟨1000000123, 456, utcLoc⟩⟩ : Time estFixed) = .ok bs ∧
      ((zeroTime utcLoc).UnmarshalBinary bs).2 = none ∧
      sameInstant ((zeroTime utcLoc).UnmarshalBinary bs).1.UTC
        (Time.UTC (⟨⟨1000000123, 456, utcLoc⟩⟩ : Time estFixed)) := by
  have hwf : Time.WF (⟨⟨1000000123, 456, utcLoc⟩⟩ : Time estFixed) :=
    ⟨rfl, by decide, by decide, by decide, by decide⟩
  obtain ⟨bs, h1, h2, h3, _⟩ :=
    c7_binary_roundtrip estFixed utcLoc (⟨⟨1000000123, 456, utcLoc⟩⟩ : Time estFixed)
      (zeroTime utcLoc) hwf
  exact ⟨hwf, bs, h1, h2, h3⟩

theorem goTimeUnmarshalJSON_quoted (body : List Int) (g : GoTime)
    (hne : (34 : Int) :: (body ++ [34]) ≠ [110, 117, 108, 108])
    (hp : parseRFC3339 body = some g) :
    goTimeUnmarshalJSON (34 :: (body ++ [34])) = .ok g := by
  simp only [goTimeUnmarshalJSON, if_neg hne]
  have hcond : True ∧ (body ++ [34]).getLast? = some 34 :=
    ⟨trivial, List.getLast?_concat _⟩
  rw [if_pos hcond, List.dropLast_concat, hp]

/-- C5: for every valid calendar-component tuple and every zone `Z` under
which the tuple denotes an existing local time (the offset in effect at
the resulting instant agrees with the offset `time.Date` resolves for the
wall clock — automatic for fixed zones), constructing via `Date[Z]` and
extracting `Date`, `Clock` and `Nanosecond` again in `Z` returns exactly
the same tuple. -/
theorem c5_date_roundtrip (Z : Location) (y mo d h mi s ns : Int)
    (hmo1 : 1 ≤ mo) (hmo2 : mo ≤ 12) (hd1 : 1 ≤ d) (hd2 : d ≤ daysInMonth y mo)
    (hh1 : 0 ≤ h) (hh2 : h ≤ 23) (hmi1 : 0 ≤ mi) (hmi2 : mi ≤ 59)
    (hs1 : 0 ≤ s) (hs2 : s ≤ 59) (hns1 : 0 ≤ ns) (hns2 : ns < 1000000000)
    (hcons : lookupOff Z
        (dateWallUnix y mo d h mi s - dateOff Z (dateWallUnix y mo d h mi s)) =
      dateOff Z (dateWallUnix y mo d h mi s)) :
    (Date Z y mo d h mi s ns).Date = (y, mo, d) ∧
    (Date Z y mo d h mi s ns).Clock = (h, mi, s) ∧
    (Date Z y mo d h mi s ns).Nanosecond = ns := by
  have h3 := goDate_roundtrip Z y mo d h mi s ns hmo1 hmo2 hd1 hd2 hh1 hh2
    hmi1 hmi2 hs1 hs2 hns1 hns2 hcons
  exact ⟨h3.1, h3.2.1, h3.2.2⟩

theorem c5_date_roundtrip_witness :
    (29 : Int) ≤ daysInMonth 2024 2 ∧
    (Date estFixed 2024 2 29 21 30 15 123456789).Date = (2024, 2, 29) ∧
    (Date estFixed 2024 2 29 21 30 15 123456789).Clock = (21, 30, 15) ∧
    (Date estFixed 2024 2 29 21 30 15 123456789).Nanosecond = 123456789 := by
  have h := c5_date_roundtrip estFixed 2024 2 29 21 30 15 123456789
    (by decide) (by decide) (by decide) (by decide) (by decide) (by decide)
    (by decide) (by decide) (by decide) (by decide) (by decide) (by decide)
    (by decide)
  exact ⟨by decide, h.1, h.2.1, h.2.2⟩

/-- C10 counterexample: in a location whose offset is not a whole number of
minutes (UTC-00:28:54, as IANA local-mean-time periods yield), the instant
2024-03-01 02:00:00 UTC marshals without error to
`"2024-03-01T01:31:06-00:28"` — the sub-minute part of the offset is
truncated by the RFC 3339 layout — and unmarshalling those bytes yields an
instant 54 seconds earlier than the original, so the JSON round-trip does
not preserve the instant for that well-formed value. -/
theorem c10_json_counterexample :
    ((zeroTime utcLoc).UnmarshalJSON
        ((Time.MarshalJSON (⟨⟨63844855200, 0, utcLoc⟩⟩ : Time lmtLoc)).toOption.getD [])).2
      = none ∧
    ((zeroTime utcLoc).UnmarshalJSON
        ((Time.MarshalJSON (⟨⟨63844855200, 0, utcLoc⟩⟩ : Time lmtLoc)).toOption.getD [])).1.UTC.sec
      = 63844855146 ∧
    (⟨⟨63844855200, 0, utcLoc⟩⟩ : Time lmtLoc).UTC.sec = 63844855200 ∧
    (63844855146 : Int) ≠ 63844855200 :=
  ⟨rfl, rfl, rfl, by decide⟩

/-- C10 (amended): for every well-formed `Time[A]` whose zone offset at the
stored instant is a whole number of minutes, a successful `MarshalJSON`
followed by `UnmarshalJSON` into a `Time[B]` receiver succeeds and yields
a value whose UTC instant equals the original's, even though the text was
rendered with zone `A`'s offset. -/
theorem c10_json_amended (A B : Location) (t : Time A) (recv : Time B)
    (bs : List Int) (hwf : t.WF) (hok : t.MarshalJSON = .ok bs)
    (hmin : goRem (lookupOff A t.nativeTimeInLocation.unixSec) 60 = 0) :
    (recv.UnmarshalJSON bs).2 = none ∧
    sameInstant (recv.UnmarshalJSON bs).1.UTC t.UTC := by
  obtain ⟨hloc, hn1, hn2, hs1, hs2⟩ := hwf
  have hA : t.nativeTimeInLocation.loc = A := rfl
  unfold Time.MarshalJSON goMarshalJSON at hok
  rw [hA] at hok
  by_cases hy : t.nativeTimeInLocation.dateTuple.1 < 0 ∨
      9999 < t.nativeTimeInLocation.dateTuple.1
  · rw [if_pos hy] at hok
    exact absurd hok (by simp)
  rw [if_neg hy] at hok
  by_cases hz : 24 ≤ (if goQuo (lookupOff A t.nativeTimeInLocation.unixSec) 60 < 0
      then -(goQuo (lookupOff A t.nativeTimeInLocation.unixSec) 60)
      else goQuo (lookupOff A t.nativeTimeInLocation.unixSec) 60) / 60
  · rw [if_pos hz] at hok
    exact absurd hok (by simp)
  rw [if_neg hz] at hok
  injection hok with hbs
  have hq : lookupOff A t.nativeTimeInLocation.unixSec =
      goQuo (lookupOff A t.nativeTimeInLocation.unixSec) 60 * 60 := by
    unfold goRem at hmin
    omega
  have ho12 : -86340 ≤ lookupOff A t.nativeTimeInLocation.unixSec ∧
      lookupOff A t.nativeTimeInLocation.unixSec ≤ 86340 := by
    rcases le_or_lt 0 (goQuo (lookupOff A t.nativeTimeInLocation.unixSec) 60) with hge | hlt
    · rw [if_neg (by omega)] at hz
      omega
    · rw [if_pos hlt] at hz
      omega
  obtain ⟨g, hp, hgs, hgn⟩ := parseRFC3339_roundtrip t.nativeTimeInLocation
    hn1 hn2 (by omega) (by omega) (by rw [hA]; exact hmin)
    (by rw [hA]; exact ho12.1) (by rw [hA]; exact ho12.2)
  have hjson : goTimeUnmarshalJSON (34 :: (rfc3339Bytes t.nativeTimeInLocation ++ [34])) =
      .ok g :=
    goTimeUnmarshalJSON_quoted _ g (by simp) hp
  have hrecv : recv.UnmarshalJSON bs = (⟨g.utc⟩, none) := by
    unfold Time.UnmarshalJSON
    rw [← hbs, hjson]
  rw [hrecv]
  exact ⟨rfl, hgs, hgn⟩

theorem c10_json_amended_witness :
    Time.MarshalJSON (⟨⟨63844855200, 123456789, utcLoc⟩⟩ : Time estFixed) =
      .ok ((Time.MarshalJSON
        (⟨⟨63844855200, 123456789, utcLoc⟩⟩ : Time estFixed)).toOption.getD []) ∧
    ((zeroTime utcLoc).UnmarshalJSON ((Time.MarshalJSON
        (⟨⟨63844855200, 123456789, utcLoc⟩⟩ : Time estFixed)).toOption.getD [])).2 = none ∧
    sameInstant ((zeroTime utcLoc).UnmarshalJSON ((Time.MarshalJSON
        (⟨⟨63844855200, 123456789, utcLoc⟩⟩ : Time estFixed)).toOption.getD [])).1.UTC
      (Time.UTC (⟨⟨63844855200, 123456789, utcLoc⟩⟩ : Time estFixed)) := by
  have h := c10_json_amended estFixed utcLoc
    (⟨⟨63844855200, 123456789, utcLoc⟩⟩ : Time estFixed) (zeroTime utcLoc) _
    ⟨rfl, by decide, by decide, by decide, by decide⟩ rfl (by decide)
  exact ⟨rfl, h.1, h.2⟩

end Meridian
